import Mathlib

/-!
Shallow embedding of the hierarchical todo store of this repository
(files rust_rewrite/src/core/todo_item.rs and rust_rewrite/src/core/todo_list.rs).

Modelling conventions:
* Uuid is modelled as Nat; the fresh ids produced by Uuid::new_v4 and the
  timestamps produced by SystemTime::now are external inputs and appear as
  explicit parameters.
* HashMap is modelled as an association list with in-place replacement on
  insert; HashSet buckets are modelled as duplicate-free lists whose
  iteration order is insertion order (pinning the container order
  semantics, which the source leaves to std HashSet).
* The recursive functions of the source (is_ancestor, remove_item, the
  traversal of hierarchical_view) are written with an explicit fuel
  argument; the public wrappers supply fuel that is sufficient whenever the
  corresponding Rust recursion terminates, so on those states the model
  agrees with the source step by step.
-/

/-- Priority levels for todo items (todo_item.rs). -/
inductive Priority
  | Low
  | Medium
  | High
deriving DecidableEq

/-- Status of a todo item (todo_item.rs). -/
inductive Status
  | NotStarted
  | InProgress
  | Completed
deriving DecidableEq

/-- A single todo item (struct TodoItem of todo_item.rs).  The metadata
HashMap is modelled as an association list. -/
structure TodoItem where
  id : Nat
  title : String
  description : Option String
  status : Status
  priority : Priority
  created_at : Nat
  due_date : Option Nat
  parent_id : Option Nat
  metadata : List (String × String)
deriving DecidableEq

/-- TodoItem::new; the fresh Uuid and the clock reading are parameters. -/
def TodoItem.new (id now : Nat) (title : String) : TodoItem :=
  { id := id
    title := title
    description := none
    status := Status.NotStarted
    priority := Priority.Medium
    created_at := now
    due_date := none
    parent_id := none
    metadata := [] }

/-- TodoItem::set_parent_id. -/
def TodoItem.set_parent_id (it : TodoItem) (p : Option Nat) : TodoItem :=
  { it with parent_id := p }

/-- TodoItem::is_completed. -/
def TodoItem.is_completed (it : TodoItem) : Bool :=
  it.status = Status.Completed

/-- TodoItem::mark_completed. -/
def TodoItem.mark_completed (it : TodoItem) : TodoItem :=
  { it with status := Status.Completed }

/-- TodoItem::is_overdue; the clock reading taken during the call is the
parameter now. -/
def TodoItem.is_overdue (it : TodoItem) (now : Nat) : Bool :=
  match it.due_date with
  | some due => decide (due < now) && !it.is_completed
  | none => false

/-- Association-list lookup (models HashMap::get). -/
def alookup {α β : Type} [DecidableEq α] (k : α) : List (α × β) → Option β
  | [] => none
  | (k', v) :: rest => if k' = k then some v else alookup k rest

/-- Association-list insert (models HashMap::insert): replaces the value at
an existing key in place, otherwise appends a new entry. -/
def aupsert {α β : Type} [DecidableEq α] (k : α) (v : β) : List (α × β) → List (α × β)
  | [] => [(k, v)]
  | (k', v') :: rest =>
      if k' = k then (k, v) :: rest else (k', v') :: aupsert k v rest

/-- Association-list removal (models HashMap::remove): drops the entry with
the given key. -/
def aremove {α β : Type} [DecidableEq α] (k : α) : List (α × β) → List (α × β)
  | [] => []
  | (k', v') :: rest =>
      if k' = k then rest else (k', v') :: aremove k rest

/-- HashSet::insert on a bucket: appends the id unless already present. -/
def bucketInsert (b : List Nat) (x : Nat) : List Nat :=
  if x ∈ b then b else b ++ [x]

/-- Apply a function to the bucket stored at one key of the hierarchy map;
no-op when the key is absent (models hierarchy.get_mut(..)). -/
def hModify (k : Option Nat) (f : List Nat → List Nat) :
    List (Option Nat × List Nat) → List (Option Nat × List Nat)
  | [] => []
  | (k', b) :: rest =>
      if k' = k then (k', f b) :: rest else (k', b) :: hModify k f rest

/-- Remove one id from the bucket at a key, when that key is present
(models get_mut followed by HashSet::remove). -/
def hErase (k : Option Nat) (x : Nat) (h : List (Option Nat × List Nat)) :
    List (Option Nat × List Nat) :=
  hModify k (fun b => b.erase x) h

/-- hierarchy.entry(k).or_insert_with(HashSet::new).insert(x). -/
def hInsert (k : Option Nat) (x : Nat) :
    List (Option Nat × List Nat) → List (Option Nat × List Nat)
  | [] => [(k, [x])]
  | (k', b) :: rest =>
      if k' = k then (k', bucketInsert b x) :: rest else (k', b) :: hInsert k x rest

/-- hierarchy.entry(k).or_insert_with(HashSet::new) followed by clear() and
re-inserting every id of the given list in order (the tail of
move_item_before). -/
def hSet (k : Option Nat) (ids : List Nat) :
    List (Option Nat × List Nat) → List (Option Nat × List Nat)
  | [] => [(k, ids.foldl bucketInsert [])]
  | (k', b) :: rest =>
      if k' = k then (k', ids.foldl bucketInsert []) :: rest
      else (k', b) :: hSet k ids rest

/-- TodoList (todo_list.rs): the item map plus the derived
parent-to-children index. -/
structure TodoList where
  name : String
  items : List (Nat × TodoItem)
  hierarchy : List (Option Nat × List Nat)
deriving DecidableEq

/-- TodoList::new. -/
def TodoList.new (name : String) : TodoList :=
  { name := name, items := [], hierarchy := [] }

/-- TodoList::len. -/
def TodoList.len (l : TodoList) : Nat :=
  l.items.length

/-- TodoList::add_item. -/
def add_item (l : TodoList) (item : TodoItem) : Nat × TodoList :=
  (item.id,
    { l with
      items := aupsert item.id item l.items
      hierarchy := hInsert item.parent_id item.id l.hierarchy })

/-- TodoList::create_item; the Uuid and timestamp of TodoItem::new are
parameters. -/
def create_item (l : TodoList) (id now : Nat) (title : String) : Nat × TodoList :=
  add_item l (TodoItem.new id now title)

/-- TodoList::get_item. -/
def get_item (l : TodoList) (id : Nat) : Option TodoItem :=
  alookup id l.items

/-- TodoList::child_ids. -/
def child_ids (l : TodoList) (parent_id : Nat) : List Nat :=
  (alookup (some parent_id) l.hierarchy).getD []

/-- TodoList::root_item_ids. -/
def root_item_ids (l : TodoList) : List Nat :=
  (alookup none l.hierarchy).getD []

/-- The bucket (possibly empty) associated with one optional-parent key. -/
def bucketAt (l : TodoList) (k : Option Nat) : List Nat :=
  (alookup k l.hierarchy).getD []

/-- The match on an optional parent used by move_item_before and the
traversal: child_ids for some parent, root_item_ids for none. -/
def childIdsOf (l : TodoList) : Option Nat → List Nat
  | some i => child_ids l i
  | none => root_item_ids l

/-- The parent_id of the item stored under an id, when present
(items.get(id).and_then(parent_id)). -/
def parentOf (l : TodoList) (id : Nat) : Option Nat :=
  (alookup id l.items).bind TodoItem.parent_id

/-- The ancestor walk of TodoList::is_ancestor, with explicit fuel: walks
successive parent_id links upward from item_id looking for
potential_ancestor_id; a missing item or parent stops the walk with false.
Returns none when the fuel runs out before the walk decides, which is
exactly when the Rust recursion has not terminated within that many
steps. -/
def isAncestorFuel (l : TodoList) : Nat → Nat → Nat → Option Bool
  | 0, _, _ => none
  | fuel + 1, item_id, anc =>
      match (alookup item_id l.items).bind TodoItem.parent_id with
      | none => some false
      | some pid =>
          if pid = anc then some true else isAncestorFuel l fuel pid anc

/-- TodoList::is_ancestor.  On any state where the Rust recursion
terminates the chain of distinct parents is no longer than the item count,
so the fuel below suffices and the model returns exactly the Rust answer;
on a parent-cycle the Rust code never returns and the model falls back to
true (fail closed). -/
def is_ancestor (l : TodoList) (item_id potential_ancestor_id : Nat) : Bool :=
  (isAncestorFuel l (l.items.length + 1) item_id potential_ancestor_id).getD true

/-- Outcome of move_item / move_item_before; the source returns
Result<(), String> with distinguishable messages. -/
inductive MoveResult
  | ok
  | itemNotFound
  | parentNotFound
  | targetNotFound
  | cycle
deriving DecidableEq

/-- The mutation tail of TodoList::move_item, after all checks passed:
remove the item from its current parent's bucket, insert it into the new
parent's bucket, update the item's parent_id. -/
def moveApply (l : TodoList) (item_id : Nat) (np : Option Nat) : TodoList :=
  let cur := (alookup item_id l.items).bind TodoItem.parent_id
  let h1 := hErase cur item_id l.hierarchy
  let h2 := hInsert np item_id h1
  let items' :=
    match alookup item_id l.items with
    | some it => aupsert item_id (it.set_parent_id np) l.items
    | none => l.items
  { l with items := items', hierarchy := h2 }

/-- TodoList::move_item. -/
def move_item (l : TodoList) (item_id : Nat) (new_parent_id : Option Nat) :
    MoveResult × TodoList :=
  if alookup item_id l.items = none then (MoveResult.itemNotFound, l)
  else
    match new_parent_id with
    | some pid =>
        if alookup pid l.items = none then (MoveResult.parentNotFound, l)
        else if pid = item_id ∨ is_ancestor l item_id pid = true then
          (MoveResult.cycle, l)
        else (MoveResult.ok, moveApply l item_id new_parent_id)
    | none => (MoveResult.ok, moveApply l item_id none)

mutual

/-- TodoList::remove_item with explicit fuel.  Mirrors the source: return
early when the id is unknown; pop the children bucket and recursively
remove each child; detach the id from its parent's bucket (or the root
bucket); finally remove the id from items, returning what was stored. -/
def removeItemGo : Nat → TodoList → Nat → Option TodoItem × TodoList
  | 0, l, _ => (none, l)
  | fuel + 1, l, id =>
      if alookup id l.items = none then (none, l)
      else
        let bucket := alookup (some id) l.hierarchy
        let l1 : TodoList := { l with hierarchy := aremove (some id) l.hierarchy }
        let l2 := removeListGo fuel (bucket.getD []) l1
        let l3 : TodoList :=
          match (alookup id l2.items).bind TodoItem.parent_id with
          | some p => { l2 with hierarchy := hErase (some p) id l2.hierarchy }
          | none => { l2 with hierarchy := hErase none id l2.hierarchy }
        (alookup id l3.items, { l3 with items := aremove id l3.items })
termination_by fuel l id => (fuel, 0)

/-- The for-loop of remove_item over the popped children bucket. -/
def removeListGo : Nat → List Nat → TodoList → TodoList
  | _, [], l => l
  | fuel, c :: cs, l => removeListGo fuel cs (removeItemGo fuel l c).2
termination_by fuel cs l => (fuel, cs.length + 1)

end

/-- TodoList::remove_item.  Every level of the Rust recursion that recurses
first removes one key from the hierarchy map, so the recursion depth is
bounded by the number of keys and the fuel below is always sufficient. -/
def remove_item (l : TodoList) (id : Nat) : Option TodoItem × TodoList :=
  removeItemGo (l.hierarchy.length + 1) l id

/-- The recursive helper traverse of TodoList::hierarchical_view, with
explicit fuel: visit the children of one optional parent at the given
depth, pushing each live child and recursing into its children before
moving to the next sibling.  Written with Nat.rec so that the kernel can
evaluate it on concrete stores. -/
def traverseGo (l : TodoList) (fuel : Nat) : Option Nat → Nat → List (TodoItem × Nat) :=
  Nat.rec (motive := fun _ => Option Nat → Nat → List (TodoItem × Nat))
    (fun _ _ => [])
    (fun _ ih parent depth =>
      (childIdsOf l parent).foldr
        (fun c acc =>
          (match alookup c l.items with
           | some it => (it, depth) :: ih (some c) (depth + 1)
           | none => []) ++ acc) [])
    fuel

/-- TodoList::hierarchical_view.  On tree-shaped states the recursion depth
is bounded by the item count, so the fuel suffices. -/
def hierarchical_view (l : TodoList) : List (TodoItem × Nat) :=
  traverseGo l (l.items.length + 1) none 0

/-- The reordering loop of TodoList::move_item_before: iterate the current
children, skip the moved item, emit it immediately before the target,
remembering whether the moved item was seen. -/
def buildOrderGo (item_id target_id : Nat) :
    List Nat × Bool → List Nat → List Nat × Bool
  | acc, [] => acc
  | acc, c :: cs =>
      if c = item_id then buildOrderGo item_id target_id (acc.1, true) cs
      else if c = target_id then
        buildOrderGo item_id target_id (acc.1 ++ [item_id, c], acc.2) cs
      else buildOrderGo item_id target_id (acc.1 ++ [c], acc.2) cs

/-- The list produced by the reordering loop, written as plain structural
recursion: drop the moved item, emit it immediately before the target,
keep everything else. -/
def reorderBody (x t : Nat) : List Nat → List Nat
  | [] => []
  | c :: cs =>
      if c = x then reorderBody x t cs
      else if c = t then x :: c :: reorderBody x t cs
      else c :: reorderBody x t cs

/-- TodoList::move_item_before. -/
def move_item_before (l : TodoList) (item_id target_id : Nat) :
    MoveResult × TodoList :=
  match alookup item_id l.items with
  | none => (MoveResult.itemNotFound, l)
  | some item =>
      match alookup target_id l.items with
      | none => (MoveResult.targetNotFound, l)
      | some target =>
          let tpar := target.parent_id
          let step :=
            if item.parent_id ≠ tpar then move_item l item_id tpar
            else (MoveResult.ok, l)
          match step with
          | (MoveResult.ok, l1) =>
              let children := childIdsOf l1 tpar
              let st := buildOrderGo item_id target_id ([], false) children
              let new_order :=
                if st.2 = false ∧ item_id ∉ st.1 then st.1 ++ [item_id] else st.1
              (MoveResult.ok, { l1 with hierarchy := hSet tpar new_order l1.hierarchy })
          | (e, l1) => (e, l1)

/-- TodoList::replace_item_at_index: keep the stored key, overwrite the new
item's parent_id with the replaced item's, leave the hierarchy alone. -/
def replace_item_at_index (l : TodoList) (id : Nat) (new_item : TodoItem) :
    Option TodoItem × TodoList :=
  match alookup id l.items with
  | none => (none, l)
  | some original =>
      let stored := new_item.set_parent_id original.parent_id
      (some stored, { l with items := aupsert id stored l.items })

/-- One call of the mutating interface quantified over by the claims. -/
inductive Op
  | create (id now : Nat) (title : String)
  | add (item : TodoItem)
  | remove (id : Nat)
  | move (id : Nat) (parent : Option Nat)
deriving DecidableEq

/-- Apply one call to a store. -/
def applyOp (l : TodoList) : Op → TodoList
  | Op.create id now title => (create_item l id now title).2
  | Op.add item => (add_item l item).2
  | Op.remove id => (remove_item l id).2
  | Op.move id parent => (move_item l id parent).2

/-- Run a sequence of calls. -/
def runOps (l : TodoList) (ops : List Op) : TodoList :=
  ops.foldl applyOp l

/-- Freshness of one call: an inserted item's id is not already a key of
items (Uuid::new_v4 guarantees this in practice). -/
def freshOk (l : TodoList) : Op → Bool
  | Op.create id _ _ => (alookup id l.items).isNone
  | Op.add item => (alookup item.id l.items).isNone
  | _ => true

/-- Freshness of every call of a sequence, each judged at its own state. -/
def freshRun (l : TodoList) : List Op → Bool
  | [] => true
  | op :: ops => freshOk l op && freshRun (applyOp l op) ops

/-- Well-formedness of the two structures that every reachable state keeps:
distinct item keys, distinct hierarchy keys, duplicate-free buckets, and
every bucket member is a live item whose parent_id equals the bucket
key. -/
def WInv (l : TodoList) : Prop :=
  (l.items.map Prod.fst).Nodup ∧
  (l.hierarchy.map Prod.fst).Nodup ∧
  (∀ e ∈ l.hierarchy, e.2.Nodup) ∧
  (∀ e ∈ l.hierarchy, ∀ x ∈ e.2, (alookup x l.items).map TodoItem.parent_id = some e.1)

instance (l : TodoList) : Decidable (WInv l) := by
  unfold WInv; infer_instance

/-- Full consistency: well-formed, and every live item is a member of the
bucket named by its parent_id. -/
def StrongInv (l : TodoList) : Prop :=
  WInv l ∧ ∀ pr ∈ l.items, pr.1 ∈ bucketAt l pr.2.parent_id

instance (l : TodoList) : Decidable (StrongInv l) := by
  unfold StrongInv; infer_instance

/-- The invariant exactly as the claim states it: every id present in items
appears in exactly one hierarchy bucket, and that bucket's key equals the
item's current parent_id. -/
def ClaimInv (l : TodoList) : Prop :=
  ∀ k it, alookup k l.items = some it →
    (∃! e : Option Nat × List Nat, e ∈ l.hierarchy ∧ k ∈ e.2) ∧
    (∀ e ∈ l.hierarchy, k ∈ e.2 → e.1 = it.parent_id)

/-- Transitive descendant through parent_id links: p is encountered while
walking successive parent_id links upward from x. -/
inductive IsDesc (l : TodoList) (p : Nat) : Nat → Prop
  | base {x : Nat} : parentOf l x = some p → IsDesc l p x
  | step {x y : Nat} : parentOf l x = some y → IsDesc l p y → IsDesc l p x

/-- Transitive descendant through hierarchy buckets: x is reached from
root by repeatedly stepping into children buckets. -/
inductive ReachB (l : TodoList) (root : Nat) : Nat → Prop
  | base {x : Nat} : x ∈ bucketAt l (some root) → ReachB l root x
  | step {y x : Nat} : ReachB l root y → x ∈ bucketAt l (some y) → ReachB l root x

/-- The composable part of what one removal step guarantees, used to chain
facts through the recursive deletion. -/
structure RemStep (l l' : TodoList) : Prop where
  items_sub : l'.items.Sublist l.items
  lookup_pres : ∀ x it, alookup x l'.items = some it → alookup x l.items = some it
  keys_mono : ∀ k, alookup k l.hierarchy = none → alookup k l'.hierarchy = none
  bucket_mono : ∀ k x, x ∈ bucketAt l' k → x ∈ bucketAt l k
  hlen : l'.hierarchy.length ≤ l.hierarchy.length
  lost_mem : ∀ k x, x ∈ bucketAt l k → x ∉ bucketAt l' k → alookup x l'.items = none
  key_gone : ∀ x, alookup x l.items ≠ none → alookup x l'.items = none →
    alookup (some x) l'.hierarchy = none

/-- Everything one full removeItemGo call guarantees. -/
structure RemSpec (l : TodoList) (id : Nat) (l' : TodoList) extends
    RemStep l l' : Prop where
  winv : WInv l'
  removed_self : alookup id l.items ≠ none → alookup id l'.items = none
  removed_sub : ∀ x, alookup x l.items ≠ none → alookup x l'.items = none →
    x = id ∨ ReachB l id x

/-- Concrete store for the cycle-check scenario of the repository's own
test_cycle_prevention: a chain A(1) with child B(2) with child C(3). -/
def chainStore : TodoList :=
  runOps (TodoList.new "t")
    [Op.create 1 0 "A", Op.create 2 0 "B", Op.create 3 0 "C",
     Op.move 2 (some 1), Op.move 3 (some 2)]

/-- Concrete store whose parent_id links form a two-cycle, reachable by two
add_item calls with crafted parent ids. -/
def cycleStore : TodoList :=
  runOps (TodoList.new "t")
    [Op.add ((TodoItem.new 1 0 "a").set_parent_id (some 2)),
     Op.add ((TodoItem.new 2 0 "b").set_parent_id (some 1))]

/-- Concrete store for the hierarchical_view scenario: A(0) with children
B(1) and C(2), and B with child D(3). -/
def viewStore : TodoList :=
  runOps (TodoList.new "t")
    [Op.create 0 0 "A", Op.create 1 0 "B", Op.create 2 0 "C", Op.create 3 0 "D",
     Op.move 1 (some 0), Op.move 2 (some 0), Op.move 3 (some 1)]

/-- Concrete store for the move_item_before scenario: parent 0 whose bucket
iterates as 1, 2, 4, 3 (so removing 4 leaves p = 1, target = 2, q = 3). -/
def orderStore : TodoList :=
  runOps (TodoList.new "t")
    [Op.create 0 0 "P", Op.create 1 0 "p", Op.create 2 0 "t", Op.create 3 0 "q",
     Op.create 4 0 "x",
     Op.move 1 (some 0), Op.move 2 (some 0), Op.move 4 (some 0), Op.move 3 (some 0)]

/-- Concrete store with a parent (1) and one child (2). -/
def parentChildStore : TodoList :=
  runOps (TodoList.new "t")
    [Op.create 1 0 "parent", Op.create 2 0 "child", Op.move 2 (some 1)]

/-- Two add_item calls that reuse one id with different parent ids: the
input of the counterexample to the unrestricted hierarchy invariant. -/
def dupIdOps : List Op :=
  [Op.add (TodoItem.new 1 0 "first"),
   Op.add ((TodoItem.new 1 0 "second").set_parent_id (some 2))]

/-! ### Association-list toolkit -/

theorem alookup_eq_none {α β : Type} [DecidableEq α] (k : α) (xs : List (α × β)) :
    alookup k xs = none ↔ k ∉ xs.map Prod.fst := by
  induction xs with
  | nil => simp [alookup]
  | cons e rest ih =>
      obtain ⟨k', v⟩ := e
      by_cases h : k' = k
      · subst h; simp [alookup]
      · simp only [alookup, if_neg h, List.map_cons, List.mem_cons, ih]
        constructor
        · rintro hk (rfl | hmem)
          · exact h rfl
          · exact hk hmem
        · intro hk hmem; exact hk (Or.inr hmem)

theorem alookup_mem {α β : Type} [DecidableEq α] {k : α} {v : β} :
    ∀ {xs : List (α × β)}, alookup k xs = some v → (k, v) ∈ xs := by
  intro xs
  induction xs with
  | nil => intro h; simp [alookup] at h
  | cons e rest ih =>
      obtain ⟨k', v'⟩ := e
      intro h
      by_cases hk : k' = k
      · subst hk
        rw [alookup, if_pos rfl] at h
        cases h
        exact List.mem_cons_self _ _
      · rw [alookup, if_neg hk] at h
        exact List.mem_cons_of_mem _ (ih h)

theorem mem_alookup_of_nodup {α β : Type} [DecidableEq α] {k : α} {v : β} :
    ∀ {xs : List (α × β)}, (xs.map Prod.fst).Nodup → (k, v) ∈ xs →
      alookup k xs = some v := by
  intro xs
  induction xs with
  | nil => simp
  | cons e rest ih =>
      obtain ⟨k', v'⟩ := e
      intro hnd hmem
      simp only [List.map_cons, List.nodup_cons] at hnd
      rcases List.mem_cons.1 hmem with heq | hmem'
      · have hk : k' = k := (congrArg Prod.fst heq).symm
        have hv : v' = v := (congrArg Prod.snd heq).symm
        subst hk; subst hv
        rw [alookup, if_pos rfl]
      · have hk : k' ≠ k := by
          rintro rfl
          exact hnd.1 (List.mem_map.2 ⟨(k', v), hmem', rfl⟩)
        rw [alookup, if_neg hk]
        exact ih hnd.2 hmem'

theorem alookup_aupsert_self {α β : Type} [DecidableEq α] (k : α) (v : β) :
    ∀ (xs : List (α × β)), alookup k (aupsert k v xs) = some v := by
  intro xs
  induction xs with
  | nil => simp [aupsert, alookup]
  | cons e rest ih =>
      obtain ⟨k', v'⟩ := e
      by_cases h : k' = k
      · subst h; simp [aupsert, alookup]
      · simp [aupsert, alookup, h, ih]

theorem alookup_aupsert_ne {α β : Type} [DecidableEq α] {k k' : α} (v : β)
    (hne : k' ≠ k) :
    ∀ (xs : List (α × β)), alookup k' (aupsert k v xs) = alookup k' xs := by
  have hne' : k ≠ k' := fun h => hne h.symm
  intro xs
  induction xs with
  | nil => simp [aupsert, alookup, hne']
  | cons e rest ih =>
      obtain ⟨k'', v''⟩ := e
      by_cases h : k'' = k
      · subst h
        rw [aupsert, if_pos rfl, alookup, if_neg hne', alookup, if_neg hne']
      · by_cases h2 : k'' = k'
        · subst h2
          rw [aupsert, if_neg h, alookup, if_pos rfl, alookup, if_pos rfl]
        · rw [aupsert, if_neg h, alookup, if_neg h2, alookup, if_neg h2, ih]

theorem map_fst_aupsert_of_mem {α β : Type} [DecidableEq α] {k : α} (v : β) :
    ∀ {xs : List (α × β)}, k ∈ xs.map Prod.fst →
      (aupsert k v xs).map Prod.fst = xs.map Prod.fst := by
  intro xs
  induction xs with
  | nil => simp
  | cons e rest ih =>
      obtain ⟨k', v'⟩ := e
      intro hmem
      by_cases h : k' = k
      · subst h; simp [aupsert]
      · have : k ∈ rest.map Prod.fst := by
          rcases List.mem_cons.1 hmem with heq | h'
          · exact absurd heq.symm h
          · exact h'
        simp [aupsert, h, ih this]

theorem map_fst_aupsert_of_not_mem {α β : Type} [DecidableEq α] {k : α} (v : β) :
    ∀ {xs : List (α × β)}, k ∉ xs.map Prod.fst →
      (aupsert k v xs).map Prod.fst = xs.map Prod.fst ++ [k] := by
  intro xs
  induction xs with
  | nil => simp [aupsert]
  | cons e rest ih =>
      obtain ⟨k', v'⟩ := e
      intro hmem
      simp only [List.map_cons, List.mem_cons] at hmem
      push_neg at hmem
      have h : k' ≠ k := fun h => hmem.1 h.symm
      simp [aupsert, h, ih hmem.2]

theorem nodup_keys_aupsert {α β : Type} [DecidableEq α] (k : α) (v : β)
    {xs : List (α × β)} (hnd : (xs.map Prod.fst).Nodup) :
    ((aupsert k v xs).map Prod.fst).Nodup := by
  by_cases h : k ∈ xs.map Prod.fst
  · rw [map_fst_aupsert_of_mem v h]; exact hnd
  · rw [map_fst_aupsert_of_not_mem v h]
    apply List.Nodup.append hnd (List.nodup_singleton k)
    intro a ha hb
    rw [List.mem_singleton] at hb
    exact h (hb ▸ ha)

theorem alookup_aremove_ne {α β : Type} [DecidableEq α] {k k' : α}
    (hne : k' ≠ k) :
    ∀ (xs : List (α × β)), alookup k' (aremove k xs) = alookup k' xs := by
  have hne' : k ≠ k' := fun h => hne h.symm
  intro xs
  induction xs with
  | nil => simp [aremove]
  | cons e rest ih =>
      obtain ⟨k'', v''⟩ := e
      by_cases h : k'' = k
      · have hkk : k'' ≠ k' := by rw [h]; exact hne'
        have hrw : aremove k ((k'', v'') :: rest) = rest := by
          rw [aremove, if_pos h]
        rw [hrw, alookup, if_neg hkk]
      · by_cases h2 : k'' = k'
        · subst h2
          rw [aremove, if_neg h, alookup, if_pos rfl, alookup, if_pos rfl]
        · rw [aremove, if_neg h, alookup, if_neg h2, alookup, if_neg h2, ih]

theorem aremove_sublist {α β : Type} [DecidableEq α] (k : α) :
    ∀ (xs : List (α × β)), (aremove k xs).Sublist xs := by
  intro xs
  induction xs with
  | nil => simp [aremove]
  | cons e rest ih =>
      obtain ⟨k', v'⟩ := e
      by_cases h : k' = k
      · rw [aremove, if_pos h]
        exact List.sublist_cons_self _ _
      · rw [aremove, if_neg h]
        exact List.Sublist.cons₂ (k', v') ih

theorem alookup_aremove_self {α β : Type} [DecidableEq α] (k : α) :
    ∀ {xs : List (α × β)}, (xs.map Prod.fst).Nodup →
      alookup k (aremove k xs) = none := by
  intro xs
  induction xs with
  | nil => simp [aremove, alookup]
  | cons e rest ih =>
      obtain ⟨k', v'⟩ := e
      intro hnd
      simp only [List.map_cons, List.nodup_cons] at hnd
      by_cases h : k' = k
      · subst h
        simp only [aremove, if_pos rfl]
        rw [alookup_eq_none]
        exact hnd.1
      · simp only [aremove, if_neg h, alookup, if_neg h]
        exact ih hnd.2

theorem aremove_of_lookup_none {α β : Type} [DecidableEq α] {k : α} :
    ∀ {xs : List (α × β)}, alookup k xs = none → aremove k xs = xs := by
  intro xs
  induction xs with
  | nil => simp [aremove]
  | cons e rest ih =>
      obtain ⟨k', v'⟩ := e
      by_cases h : k' = k
      · simp [alookup, h]
      · simp only [alookup, if_neg h, aremove, if_neg h]
        intro hx
        rw [ih hx]

theorem length_aremove_of_some {α β : Type} [DecidableEq α] {k : α} {v : β} :
    ∀ {xs : List (α × β)}, alookup k xs = some v →
      (aremove k xs).length + 1 = xs.length := by
  intro xs
  induction xs with
  | nil => simp [alookup]
  | cons e rest ih =>
      obtain ⟨k', v'⟩ := e
      by_cases h : k' = k
      · simp [alookup, aremove, h]
      · simp only [alookup, if_neg h, aremove, List.length_cons]
        intro hx
        simp [ih hx]

theorem alookup_sublist {α β : Type} [DecidableEq α] {k : α} {v : β} :
    ∀ {xs' xs : List (α × β)}, xs'.Sublist xs → (xs.map Prod.fst).Nodup →
      alookup k xs' = some v → alookup k xs = some v := by
  intro xs' xs hsub
  induction hsub with
  | slnil => simp [alookup]
  | cons e hsub ih =>
      obtain ⟨k', v'⟩ := e
      intro hnd hx
      simp only [List.map_cons, List.nodup_cons] at hnd
      have hrest := ih hnd.2 hx
      have hk : k' ≠ k := by
        rintro rfl
        exact hnd.1 (List.mem_map.2 ⟨(k', v), alookup_mem hrest, rfl⟩)
      simp [alookup, hk, hrest]
  | cons₂ e hsub ih =>
      obtain ⟨k', v'⟩ := e
      intro hnd hx
      simp only [List.map_cons, List.nodup_cons] at hnd
      by_cases h : k' = k
      · subst h
        simpa [alookup] using hx
      · simp only [alookup, if_neg h] at hx ⊢
        exact ih hnd.2 hx

/-! ### Hierarchy-map toolkit -/

theorem mem_bucketInsert {b : List Nat} {x y : Nat} :
    y ∈ bucketInsert b x ↔ y = x ∨ y ∈ b := by
  unfold bucketInsert
  by_cases h : x ∈ b
  · simp only [if_pos h]
    constructor
    · exact Or.inr
    · rintro (rfl | hy)
      · exact h
      · exact hy
  · simp [if_neg h, or_comm]

theorem nodup_bucketInsert {b : List Nat} (hnd : b.Nodup) (x : Nat) :
    (bucketInsert b x).Nodup := by
  unfold bucketInsert
  by_cases h : x ∈ b
  · simpa [if_pos h] using hnd
  · rw [if_neg h]
    apply List.Nodup.append hnd (List.nodup_singleton x)
    intro a ha hb
    rw [List.mem_singleton] at hb
    exact h (hb ▸ ha)

theorem self_mem_bucketInsert (b : List Nat) (x : Nat) : x ∈ bucketInsert b x := by
  rw [mem_bucketInsert]; exact Or.inl rfl

theorem map_fst_hModify (k : Option Nat) (f : List Nat → List Nat) :
    ∀ (h : List (Option Nat × List Nat)),
      (hModify k f h).map Prod.fst = h.map Prod.fst := by
  intro h
  induction h with
  | nil => rfl
  | cons e rest ih =>
      obtain ⟨k', b⟩ := e
      by_cases hk : k' = k
      · rw [hModify, if_pos hk]; simp
      · rw [hModify, if_neg hk]; simpa using ih

theorem alookup_hModify_self (k : Option Nat) (f : List Nat → List Nat) :
    ∀ (h : List (Option Nat × List Nat)),
      alookup k (hModify k f h) = (alookup k h).map f := by
  intro h
  induction h with
  | nil => rfl
  | cons e rest ih =>
      obtain ⟨k', b⟩ := e
      by_cases hk : k' = k
      · rw [hModify, if_pos hk, alookup, if_pos hk, alookup, if_pos hk]
        rfl
      · rw [hModify, if_neg hk, alookup, if_neg hk, alookup, if_neg hk, ih]

theorem alookup_hModify_ne {k k' : Option Nat} (f : List Nat → List Nat)
    (hne : k' ≠ k) :
    ∀ (h : List (Option Nat × List Nat)),
      alookup k' (hModify k f h) = alookup k' h := by
  intro h
  induction h with
  | nil => rfl
  | cons e rest ih =>
      obtain ⟨k'', b⟩ := e
      by_cases hk : k'' = k
      · have hkk : k'' ≠ k' := by rw [hk]; exact fun hh => hne hh.symm
        rw [hModify, if_pos hk, alookup, if_neg hkk, alookup, if_neg hkk]
      · by_cases h2 : k'' = k'
        · subst h2
          rw [hModify, if_neg hk, alookup, if_pos rfl, alookup, if_pos rfl]
        · rw [hModify, if_neg hk, alookup, if_neg h2, alookup, if_neg h2, ih]

theorem alookup_hInsert_self (k : Option Nat) (x : Nat) :
    ∀ (h : List (Option Nat × List Nat)),
      alookup k (hInsert k x h) = some (bucketInsert ((alookup k h).getD []) x) := by
  intro h
  induction h with
  | nil => simp [hInsert, alookup, bucketInsert]
  | cons e rest ih =>
      obtain ⟨k', b⟩ := e
      by_cases hk : k' = k
      · rw [hInsert, if_pos hk, alookup, if_pos hk, alookup, if_pos hk]
        rfl
      · rw [hInsert, if_neg hk, alookup, if_neg hk, alookup, if_neg hk, ih]

theorem alookup_hInsert_ne {k k' : Option Nat} (x : Nat) (hne : k' ≠ k) :
    ∀ (h : List (Option Nat × List Nat)),
      alookup k' (hInsert k x h) = alookup k' h := by
  intro h
  induction h with
  | nil => simp [hInsert, alookup, Ne.symm hne]
  | cons e rest ih =>
      obtain ⟨k'', b⟩ := e
      by_cases hk : k'' = k
      · have hkk : k'' ≠ k' := by rw [hk]; exact fun hh => hne hh.symm
        rw [hInsert, if_pos hk, alookup, if_neg hkk, alookup, if_neg hkk]
      · by_cases h2 : k'' = k'
        · subst h2
          rw [hInsert, if_neg hk, alookup, if_pos rfl, alookup, if_pos rfl]
        · rw [hInsert, if_neg hk, alookup, if_neg h2, alookup, if_neg h2, ih]

theorem map_fst_hInsert_of_mem {k : Option Nat} (x : Nat) :
    ∀ {h : List (Option Nat × List Nat)}, k ∈ h.map Prod.fst →
      (hInsert k x h).map Prod.fst = h.map Prod.fst := by
  intro h
  induction h with
  | nil => simp
  | cons e rest ih =>
      obtain ⟨k', b⟩ := e
      intro hmem
      by_cases hk : k' = k
      · rw [hInsert, if_pos hk]; simp
      · have : k ∈ rest.map Prod.fst := by
          rcases List.mem_cons.1 hmem with heq | h'
          · exact absurd heq.symm hk
          · exact h'
        rw [hInsert, if_neg hk]
        simpa using ih this

theorem map_fst_hInsert_of_not_mem {k : Option Nat} (x : Nat) :
    ∀ {h : List (Option Nat × List Nat)}, k ∉ h.map Prod.fst →
      (hInsert k x h).map Prod.fst = h.map Prod.fst ++ [k] := by
  intro h
  induction h with
  | nil => simp [hInsert]
  | cons e rest ih =>
      obtain ⟨k', b⟩ := e
      intro hmem
      simp only [List.map_cons, List.mem_cons] at hmem
      push_neg at hmem
      have hk : k' ≠ k := fun hh => hmem.1 hh.symm
      rw [hInsert, if_neg hk]
      simpa using ih hmem.2

theorem nodup_keys_hInsert (k : Option Nat) (x : Nat)
    {h : List (Option Nat × List Nat)} (hnd : (h.map Prod.fst).Nodup) :
    ((hInsert k x h).map Prod.fst).Nodup := by
  by_cases hm : k ∈ h.map Prod.fst
  · rw [map_fst_hInsert_of_mem x hm]; exact hnd
  · rw [map_fst_hInsert_of_not_mem x hm]
    apply List.Nodup.append hnd (List.nodup_singleton k)
    intro a ha hb
    rw [List.mem_singleton] at hb
    exact hm (hb ▸ ha)

theorem alookup_hSet_self (k : Option Nat) (ids : List Nat) :
    ∀ (h : List (Option Nat × List Nat)),
      alookup k (hSet k ids h) = some (ids.foldl bucketInsert []) := by
  intro h
  induction h with
  | nil => simp [hSet, alookup]
  | cons e rest ih =>
      obtain ⟨k', b⟩ := e
      by_cases hk : k' = k
      · rw [hSet, if_pos hk, alookup, if_pos hk]
      · rw [hSet, if_neg hk, alookup, if_neg hk, ih]

theorem alookup_hSet_ne {k k' : Option Nat} (ids : List Nat) (hne : k' ≠ k) :
    ∀ (h : List (Option Nat × List Nat)),
      alookup k' (hSet k ids h) = alookup k' h := by
  intro h
  induction h with
  | nil => simp [hSet, alookup, Ne.symm hne]
  | cons e rest ih =>
      obtain ⟨k'', b⟩ := e
      by_cases hk : k'' = k
      · have hkk : k'' ≠ k' := by rw [hk]; exact fun hh => hne hh.symm
        rw [hSet, if_pos hk, alookup, if_neg hkk, alookup, if_neg hkk]
      · by_cases h2 : k'' = k'
        · subst h2
          rw [hSet, if_neg hk, alookup, if_pos rfl, alookup, if_pos rfl]
        · rw [hSet, if_neg hk, alookup, if_neg h2, alookup, if_neg h2, ih]

theorem mem_bucketAt_iff {l : TodoList} {k : Option Nat} {x : Nat} :
    x ∈ bucketAt l k ↔ ∃ b, alookup k l.hierarchy = some b ∧ x ∈ b := by
  unfold bucketAt
  cases h : alookup k l.hierarchy with
  | none => simp
  | some b => simp

theorem nodup_keys_entry_eq {h : List (Option Nat × List Nat)}
    (hnd : (h.map Prod.fst).Nodup) {k : Option Nat} {b1 b2 : List Nat}
    (h1 : (k, b1) ∈ h) (h2 : (k, b2) ∈ h) : b1 = b2 := by
  have e1 := mem_alookup_of_nodup hnd h1
  have e2 := mem_alookup_of_nodup hnd h2
  rw [e1] at e2
  exact Option.some.injEq .. ▸ e2 ▸ rfl

/-! ### Invariant accessors -/

theorem winv_parent_of_mem {l : TodoList} (hw : WInv l) {x : Nat} {k : Option Nat}
    (hx : x ∈ bucketAt l k) :
    (alookup x l.items).map TodoItem.parent_id = some k := by
  obtain ⟨b, hb, hxb⟩ := mem_bucketAt_iff.1 hx
  exact hw.2.2.2 (k, b) (alookup_mem hb) x hxb

theorem winv_mem_items {l : TodoList} (hw : WInv l) {x : Nat} {k : Option Nat}
    (hx : x ∈ bucketAt l k) :
    ∃ it, alookup x l.items = some it ∧ it.parent_id = k := by
  have h := winv_parent_of_mem hw hx
  cases hit : alookup x l.items with
  | none => rw [hit] at h; simp at h
  | some it =>
      rw [hit] at h
      simp only [Option.map_some'] at h
      exact ⟨it, rfl, Option.some.inj h⟩

theorem winv_unique_bucket {l : TodoList} (hw : WInv l) {x : Nat}
    {k k' : Option Nat} (h1 : x ∈ bucketAt l k) (h2 : x ∈ bucketAt l k') :
    k = k' := by
  have e1 := winv_parent_of_mem hw h1
  have e2 := winv_parent_of_mem hw h2
  rw [e1] at e2
  exact Option.some.inj e2

theorem winv_bucket_nodup {l : TodoList} (hw : WInv l) {k : Option Nat}
    {b : List Nat} (hb : alookup k l.hierarchy = some b) : b.Nodup := by
  exact hw.2.2.1 (k, b) (alookup_mem hb)

theorem strongInv_mem_bucket {l : TodoList} (hs : StrongInv l) {x : Nat}
    {it : TodoItem} (hx : alookup x l.items = some it) :
    x ∈ bucketAt l it.parent_id :=
  hs.2 (x, it) (alookup_mem hx)

/-! ### Claim C8: is_overdue -/

/-- C8: for every TodoItem, is_overdue() returns true exactly when the due
date is set, is strictly earlier than the clock reading taken during the
call, and the status is not Completed. -/
theorem C8_is_overdue_iff (it : TodoItem) (now : Nat) :
    it.is_overdue now = true ↔
      (∃ d, it.due_date = some d ∧ d < now) ∧ it.status ≠ Status.Completed := by
  unfold TodoItem.is_overdue TodoItem.is_completed
  cases h : it.due_date with
  | none => simp [h]
  | some d => simp [h]

/-! ### Claim C9: mark_completed frame -/

/-- C9: mark_completed() sets status to Completed and leaves every other
field of the item unchanged. -/
theorem C9_mark_completed_frame (it : TodoItem) :
    it.mark_completed.status = Status.Completed ∧
    it.mark_completed.id = it.id ∧
    it.mark_completed.title = it.title ∧
    it.mark_completed.description = it.description ∧
    it.mark_completed.priority = it.priority ∧
    it.mark_completed.created_at = it.created_at ∧
    it.mark_completed.due_date = it.due_date ∧
    it.mark_completed.parent_id = it.parent_id ∧
    it.mark_completed.metadata = it.metadata :=
  ⟨rfl, rfl, rfl, rfl, rfl, rfl, rfl, rfl, rfl⟩

/-! ### Claim C10: replace_item_at_index -/

/-- C10: for a present id, replace_item_at_index stores the new item under
that key with its parent_id overwritten to the replaced item's parent_id,
returns Some of the stored item, and leaves the hierarchy and every other
items entry unchanged; for an absent id it returns None and changes
nothing. -/
theorem C10_replace_item_spec (l : TodoList) (id : Nat) (ni : TodoItem) :
    (∀ orig, alookup id l.items = some orig →
      (replace_item_at_index l id ni).1 = some (ni.set_parent_id orig.parent_id) ∧
      (replace_item_at_index l id ni).2.hierarchy = l.hierarchy ∧
      (replace_item_at_index l id ni).2.name = l.name ∧
      alookup id (replace_item_at_index l id ni).2.items =
        some (ni.set_parent_id orig.parent_id) ∧
      (∀ k, k ≠ id →
        alookup k (replace_item_at_index l id ni).2.items = alookup k l.items)) ∧
    (alookup id l.items = none → replace_item_at_index l id ni = (none, l)) := by
  constructor
  · intro orig horig
    unfold replace_item_at_index
    rw [horig]
    refine ⟨rfl, rfl, rfl, ?_, ?_⟩
    · exact alookup_aupsert_self id _ l.items
    · intro k hk
      exact alookup_aupsert_ne _ hk l.items
  · intro hnone
    unfold replace_item_at_index
    rw [hnone]

/-- Witness for C10 at a concrete store and item. -/
theorem C10_witness :
    (replace_item_at_index parentChildStore 2 (TodoItem.new 9 5 "n")).1 =
      some ((TodoItem.new 9 5 "n").set_parent_id (some 1)) ∧
    (replace_item_at_index parentChildStore 2 (TodoItem.new 9 5 "n")).2.hierarchy =
      parentChildStore.hierarchy := by
  have h := (C10_replace_item_spec parentChildStore 2 (TodoItem.new 9 5 "n")).1
    ((TodoItem.new 2 0 "child").set_parent_id (some 1)) (by decide)
  exact ⟨h.1, h.2.1⟩

/-! ### Claim C6: failing mutations leave the store unchanged -/

/-- C6: whenever move_item returns any error, or remove_item is called on
an id absent from items (returning None), the items map and the hierarchy
index are exactly as before the call. -/
theorem C6_error_leaves_state (l : TodoList) (a : Nat) (np : Option Nat) :
    ((move_item l a np).1 ≠ MoveResult.ok → (move_item l a np).2 = l) ∧
    (alookup a l.items = none → remove_item l a = (none, l)) := by
  constructor
  · intro herr
    by_cases h1 : alookup a l.items = none
    · simp [move_item, h1]
    · cases np with
      | none => simp [move_item, h1] at herr
      | some pid =>
          by_cases h2 : alookup pid l.items = none
          · simp [move_item, h1, h2]
          · by_cases h3 : pid = a ∨ is_ancestor l a pid = true
            · simp [move_item, h1, h2, h3]
            · simp [move_item, h1, h2, h3] at herr
  · intro hnone
    rw [remove_item, removeItemGo, if_pos hnone]

/-- Witness for C6 on the empty store. -/
theorem C6_witness :
    (move_item (TodoList.new "w") 1 none).2 = TodoList.new "w" ∧
    remove_item (TodoList.new "w") 1 = (none, TodoList.new "w") :=
  ⟨(C6_error_leaves_state (TodoList.new "w") 1 none).1 (by decide),
   (C6_error_leaves_state (TodoList.new "w") 1 none).2 (by decide)⟩

/-! ### Claim C7: hierarchical_view on the concrete tree -/

/-- C7: on the store whose hierarchy forms the tree A(0) with children
B(1) and C(2), and B(1) with child D(3), hierarchical_view yields A first
at depth 0 (hence before all of its descendants), D at depth 2 immediately
inside B's subtree, C at depth 1, and no item twice. -/
theorem C7_hierarchical_view_order :
    ((hierarchical_view viewStore).map (fun pr => (pr.1.id, pr.2))).head? =
      some (0, 0) ∧
    (3, 2) ∈ (hierarchical_view viewStore).map (fun pr => (pr.1.id, pr.2)) ∧
    (2, 1) ∈ (hierarchical_view viewStore).map (fun pr => (pr.1.id, pr.2)) ∧
    (∃ i, ((hierarchical_view viewStore).map (fun pr => (pr.1.id, pr.2))).get? i =
            some (1, 1) ∧
          ((hierarchical_view viewStore).map (fun pr => (pr.1.id, pr.2))).get? (i + 1) =
            some (3, 2)) ∧
    ((hierarchical_view viewStore).map (fun pr => pr.1.id)).Nodup :=
  ⟨by decide, by decide, by decide, ⟨1, by decide, by decide⟩, by decide⟩

/-! ### Claim C3: the cycle check of move_item is inverted -/

/-- C3 (code-bug evidence): on the chain where 1 is an ancestor of 3
(so 1 is encountered walking parent links upward from the requested parent
3), move_item(1, some 3) nevertheless returns Ok and reparents 1 under 3,
because the source passes the arguments of is_ancestor in the wrong order;
the repository's own test_cycle_prevention expects an error here. -/
theorem C3_cycle_check_wrong :
    IsDesc chainStore 1 3 ∧
    (move_item chainStore 1 (some 3)).1 = MoveResult.ok ∧
    parentOf (move_item chainStore 1 (some 3)).2 1 = some 3 :=
  ⟨@IsDesc.step chainStore 1 3 2 (by decide) (@IsDesc.base chainStore 1 2 (by decide)),
   by decide, by decide⟩

/-! ### Claim C4: the ancestor walk does not terminate on a parent cycle -/

/-- C4 (code-bug evidence): on the store whose parent_id links form the
two-cycle 1 ↔ 2 (reached by two add_item calls with crafted parents), the
ancestor walk starting at 1 and looking for 3 runs out of any amount of
fuel, i.e. the recursion of the source never terminates on this reachable
state, contradicting the requirement that the walk never loop
unboundedly. -/
theorem C4_ancestor_walk_unbounded :
    ∀ fuel : Nat, isAncestorFuel cycleStore fuel 1 3 = none := by
  have key : ∀ fuel : Nat,
      isAncestorFuel cycleStore fuel 1 3 = none ∧
      isAncestorFuel cycleStore fuel 2 3 = none := by
    intro fuel
    induction fuel with
    | zero => exact ⟨rfl, rfl⟩
    | succ n ih =>
        constructor
        · have h2 : (alookup 1 cycleStore.items).bind TodoItem.parent_id = some 2 := by
            decide
          rw [isAncestorFuel, h2]
          show (if (2 : Nat) = 3 then some true
                else isAncestorFuel cycleStore n 2 3) = none
          rw [if_neg (by decide : ¬(2 : Nat) = 3)]
          exact ih.2
        · have h1 : (alookup 2 cycleStore.items).bind TodoItem.parent_id = some 1 := by
            decide
          rw [isAncestorFuel, h1]
          show (if (1 : Nat) = 3 then some true
                else isAncestorFuel cycleStore n 1 3) = none
          rw [if_neg (by decide : ¬(1 : Nat) = 3)]
          exact ih.1
  exact fun fuel => (key fuel).1

/-! ### Claim C1, counterexample part -/

/-- C1 as stated is false: after two add_item calls that reuse id 1 with
different parent ids, id 1 is a member of the root bucket and of the
bucket keyed some 2, so it does not appear in exactly one bucket. -/
theorem C1_counterexample : ¬ ClaimInv (runOps (TodoList.new "x") dupIdOps) := by
  intro h
  have hlook : alookup 1 (runOps (TodoList.new "x") dupIdOps).items =
      some ((TodoItem.new 1 0 "second").set_parent_id (some 2)) := by decide
  have h2 := (h 1 _ hlook).2
  have hmem : ((none : Option Nat), [1]) ∈
      (runOps (TodoList.new "x") dupIdOps).hierarchy := by decide
  have hbad := h2 (none, [1]) hmem (by decide)
  exact absurd hbad (by decide)

/-! ### Claim C2: move_item_before ordering -/

theorem childIdsOf_eq_bucketAt (l : TodoList) (k : Option Nat) :
    childIdsOf l k = bucketAt l k := by
  cases k <;> rfl

theorem foldl_bucketInsert_of_nodup :
    ∀ (L acc : List Nat), L.Nodup → (∀ a ∈ L, a ∉ acc) →
      L.foldl bucketInsert acc = acc ++ L := by
  intro L
  induction L with
  | nil => intro acc _ _; simp
  | cons a rest ih =>
      intro acc hnd hdisj
      simp only [List.nodup_cons] at hnd
      have ha : a ∉ acc := hdisj a (List.mem_cons_self a rest)
      simp only [List.foldl_cons]
      rw [bucketInsert, if_neg ha]
      rw [ih (acc ++ [a]) hnd.2]
      · simp
      · intro b hb
        simp only [List.mem_append, List.mem_singleton]
        rintro (hacc | rfl)
        · exact hdisj b (List.mem_cons_of_mem a hb) hacc
        · exact hnd.1 hb

theorem buildOrderGo_eq (x t : Nat) :
    ∀ (cs : List Nat) (acc : List Nat) (flag : Bool),
      buildOrderGo x t (acc, flag) cs =
        (acc ++ reorderBody x t cs, flag || decide (x ∈ cs)) := by
  intro cs
  induction cs with
  | nil => intro acc flag; simp [buildOrderGo, reorderBody]
  | cons c cs ih =>
      intro acc flag
      by_cases hcx : c = x
      · subst hcx
        rw [buildOrderGo, if_pos rfl, ih, reorderBody, if_pos rfl]
        simp
      · have hxc : ¬x = c := fun h => hcx h.symm
        by_cases hct : c = t
        · subst hct
          rw [buildOrderGo, if_neg hcx, if_pos rfl, ih]
          rw [reorderBody, if_neg hcx, if_pos rfl]
          simp [hxc]
        · rw [buildOrderGo, if_neg hcx, if_neg hct, ih]
          rw [reorderBody, if_neg hcx, if_neg hct]
          simp [hxc]

theorem reorderBody_erase (x t : Nat) :
    ∀ (L : List Nat), x ∈ L → reorderBody x t L = reorderBody x t (L.erase x) := by
  intro L
  induction L with
  | nil => intro h; simp at h
  | cons c cs ih =>
      intro hx
      by_cases hcx : c = x
      · subst hcx
        rw [List.erase_cons_head, reorderBody, if_pos rfl]
      · have hxc : x ≠ c := fun h => hcx h.symm
        have hxcs : x ∈ cs := by
          rcases List.mem_cons.1 hx with h | h
          · exact absurd h.symm hcx
          · exact h
        rw [List.erase_cons_tail]
        · by_cases hct : c = t
          · subst hct
            rw [reorderBody, if_neg hcx, if_pos rfl,
              reorderBody, if_neg hcx, if_pos rfl, ih hxcs]
          · rw [reorderBody, if_neg hcx, if_neg hct,
              reorderBody, if_neg hcx, if_neg hct, ih hxcs]
        · simpa using fun h : c = x => hcx h

theorem reorderBody_concrete {x t p q : Nat}
    (hxp : x ≠ p) (hxt : x ≠ t) (hxq : x ≠ q) (hpt : p ≠ t) (hqt : q ≠ t) :
    reorderBody x t [p, t, q] = [p, x, t, q] := by
  have hpx : ¬p = x := fun h => hxp h.symm
  have htx : ¬t = x := fun h => hxt h.symm
  have hqx : ¬q = x := fun h => hxq h.symm
  rw [reorderBody, if_neg hpx, if_neg hpt,
    reorderBody, if_neg htx, if_pos rfl,
    reorderBody, if_neg hqx, if_neg hqt, reorderBody]

/-- C2: if the bucket of a parent, with the moved item x taken out,
iterates as p, target, q, and x is itself a member of that same bucket
(both items living under that parent), then move_item_before(x, target)
returns Ok and the parent's bucket afterwards iterates as
p, x, target, q. -/
theorem C2_move_before_order (l : TodoList) (x t p q : Nat) (pid : Option Nat)
    (xit tit : TodoItem)
    (hx : alookup x l.items = some xit) (hxp : xit.parent_id = pid)
    (ht : alookup t l.items = some tit) (htp : tit.parent_id = pid)
    (hnd : (bucketAt l pid).Nodup)
    (hxb : x ∈ bucketAt l pid)
    (he : (bucketAt l pid).erase x = [p, t, q]) :
    (move_item_before l x t).1 = MoveResult.ok ∧
    bucketAt (move_item_before l x t).2 pid = [p, x, t, q] := by
  have hndE : ([p, t, q] : List Nat).Nodup := he ▸ hnd.erase x
  have hxE : x ∉ ([p, t, q] : List Nat) := by
    intro hmem
    rw [← he] at hmem
    exact (List.Nodup.mem_erase_iff hnd).1 hmem |>.1 rfl
  have hxp' : x ≠ p := fun h => hxE (by rw [h]; exact List.mem_cons_self _ _)
  have hxt' : x ≠ t := by
    intro h
    exact hxE (by rw [h]; simp)
  have hxq' : x ≠ q := fun h => hxE (by rw [h]; simp)
  have hpt' : p ≠ t := by
    intro h; subst h; simp at hndE
  have hpq' : p ≠ q := by
    intro h; subst h; simp at hndE
  have htq' : t ≠ q := by
    intro h; subst h; simp at hndE
  have hqt' : q ≠ t := fun h => htq' h.symm
  have hbody : reorderBody x t (bucketAt l pid) = [p, x, t, q] := by
    rw [reorderBody_erase x t _ hxb, he]
    exact reorderBody_concrete hxp' hxt' hxq' hpt' hqt'
  have hpx' : p ≠ x := fun h => hxp' h.symm
  have htx' : t ≠ x := fun h => hxt' h.symm
  have hqx' : q ≠ x := fun h => hxq' h.symm
  have hres : ([p, x, t, q] : List Nat).Nodup := by
    simp only [List.nodup_cons, List.mem_cons, List.mem_singleton,
      List.not_mem_nil, or_false, not_or, List.nodup_nil, and_true]
    tauto
  -- now evaluate move_item_before
  have hsame : xit.parent_id = tit.parent_id := by rw [hxp, htp]
  have hfold : ([p, x, t, q] : List Nat).foldl bucketInsert [] = [p, x, t, q] := by
    have := foldl_bucketInsert_of_nodup [p, x, t, q] [] hres (by simp)
    simpa using this
  constructor
  · simp only [move_item_before, hx, ht, hsame, ne_eq, not_true_eq_false, if_false]
  · simp only [move_item_before, hx, ht, hsame, ne_eq, not_true_eq_false, if_false,
      childIdsOf_eq_bucketAt, ← htp]
    rw [htp, buildOrderGo_eq, hbody]
    simp only [List.nil_append, decide_eq_true_eq]
    rw [if_neg (by simp [hxb])]
    unfold bucketAt
    rw [alookup_hSet_self, hfold]
    rfl

/-- Witness for C2 on the concrete store whose parent-0 bucket iterates as
1, 2, 4, 3: moving 4 before 2 yields 1, 4, 2, 3. -/
theorem C2_witness :
    (move_item_before orderStore 4 2).1 = MoveResult.ok ∧
    bucketAt (move_item_before orderStore 4 2).2 (some 0) = [1, 4, 2, 3] :=
  C2_move_before_order orderStore 4 2 1 3 (some 0)
    ((TodoItem.new 4 0 "x").set_parent_id (some 0))
    ((TodoItem.new 2 0 "t").set_parent_id (some 0))
    (by decide) (by decide) (by decide) (by decide) (by decide) (by decide)
    (by decide)

/-! ### Preservation of the invariant by add_item and move_item -/

theorem getD_hErase_self (k : Option Nat) (x : Nat)
    (h : List (Option Nat × List Nat)) :
    (alookup k (hErase k x h)).getD [] = ((alookup k h).getD []).erase x := by
  unfold hErase
  rw [alookup_hModify_self]
  cases alookup k h <;> simp

theorem getD_hErase_ne {k k' : Option Nat} (x : Nat) (hne : k' ≠ k)
    (h : List (Option Nat × List Nat)) :
    alookup k' (hErase k x h) = alookup k' h := by
  unfold hErase
  exact alookup_hModify_ne _ hne h

theorem getD_hInsert_self (k : Option Nat) (x : Nat)
    (h : List (Option Nat × List Nat)) :
    (alookup k (hInsert k x h)).getD [] = bucketInsert ((alookup k h).getD []) x := by
  rw [alookup_hInsert_self]
  rfl

theorem bucketAt_nodup {l : TodoList} (hw : WInv l) (k : Option Nat) :
    (bucketAt l k).Nodup := by
  unfold bucketAt
  cases hb : alookup k l.hierarchy with
  | none => simp
  | some b => simpa using winv_bucket_nodup hw hb

theorem winv_of_parts {l : TodoList}
    (h1 : (l.items.map Prod.fst).Nodup) (h2 : (l.hierarchy.map Prod.fst).Nodup)
    (h3 : ∀ k, (bucketAt l k).Nodup)
    (h4 : ∀ k y, y ∈ bucketAt l k →
      (alookup y l.items).map TodoItem.parent_id = some k) :
    WInv l := by
  refine ⟨h1, h2, ?_, ?_⟩
  · intro e he
    have hl : alookup e.1 l.hierarchy = some e.2 := mem_alookup_of_nodup h2 he
    have := h3 e.1
    unfold bucketAt at this
    rw [hl] at this
    simpa using this
  · intro e he y hy
    have hl : alookup e.1 l.hierarchy = some e.2 := mem_alookup_of_nodup h2 he
    apply h4 e.1
    unfold bucketAt
    rw [hl]
    simpa using hy

theorem strongInv_of_lookup {l : TodoList} (hw : WInv l)
    (h : ∀ yid yit, alookup yid l.items = some yit →
      yid ∈ bucketAt l yit.parent_id) :
    StrongInv l :=
  ⟨hw, fun pr hpr => h pr.1 pr.2 (mem_alookup_of_nodup hw.1 hpr)⟩

theorem add_preserves_strong {l : TodoList} {it : TodoItem}
    (hs : StrongInv l) (hfresh : alookup it.id l.items = none) :
    StrongInv (add_item l it).2 := by
  obtain ⟨hw, hmem⟩ := hs
  set l' := (add_item l it).2 with hl'
  have hitems' : l'.items = aupsert it.id it l.items := rfl
  have hhier' : l'.hierarchy = hInsert it.parent_id it.id l.hierarchy := rfl
  have hlook : ∀ y, y ≠ it.id → alookup y l'.items = alookup y l.items := by
    intro y hy
    rw [hitems']
    exact alookup_aupsert_ne _ hy _
  have hlookself : alookup it.id l'.items = some it := by
    rw [hitems']
    exact alookup_aupsert_self _ _ _
  have hbucket : ∀ k, bucketAt l' k =
      if k = it.parent_id then bucketInsert (bucketAt l k) it.id
      else bucketAt l k := by
    intro k
    by_cases hk : k = it.parent_id
    · rw [if_pos hk, hk]
      show (alookup it.parent_id (hInsert it.parent_id it.id l.hierarchy)).getD [] = _
      rw [getD_hInsert_self]
      rfl
    · rw [if_neg hk]
      show (alookup k (hInsert it.parent_id it.id l.hierarchy)).getD [] = _
      rw [alookup_hInsert_ne _ hk]
      rfl
  have hyid_ne : ∀ y (yit : TodoItem), alookup y l.items = some yit → y ≠ it.id := by
    intro y yit hy hy'
    rw [hy'] at hy
    rw [hfresh] at hy
    cases hy
  have hw' : WInv l' := by
    apply winv_of_parts
    · rw [hitems']
      exact nodup_keys_aupsert _ _ hw.1
    · rw [hhier']
      exact nodup_keys_hInsert _ _ hw.2.1
    · intro k
      rw [hbucket k]
      by_cases hk : k = it.parent_id
      · rw [if_pos hk]
        exact nodup_bucketInsert (bucketAt_nodup hw k) _
      · rw [if_neg hk]
        exact bucketAt_nodup hw k
    · intro k y hy
      rw [hbucket k] at hy
      by_cases hk : k = it.parent_id
      · rw [if_pos hk] at hy
        rcases mem_bucketInsert.1 hy with rfl | hold
        · rw [hlookself, hk]
          simp
        · obtain ⟨yit, hyit, hp⟩ := winv_mem_items hw hold
          rw [hlook y (hyid_ne y yit hyit), hyit]
          simp [hp]
      · rw [if_neg hk] at hy
        obtain ⟨yit, hyit, hp⟩ := winv_mem_items hw hy
        rw [hlook y (hyid_ne y yit hyit), hyit]
        simp [hp]
  apply strongInv_of_lookup hw'
  intro yid yit hy
  by_cases hyid : yid = it.id
  · subst hyid
    rw [hlookself] at hy
    cases hy
    rw [hbucket, if_pos rfl]
    exact self_mem_bucketInsert _ _
  · rw [hlook yid hyid] at hy
    have hold := strongInv_mem_bucket ⟨hw, hmem⟩ hy
    rw [hbucket]
    by_cases hk : yit.parent_id = it.parent_id
    · rw [if_pos hk]
      exact mem_bucketInsert.2 (Or.inr hold)
    · rw [if_neg hk]
      exact hold

theorem moveApply_preserves_strong {l : TodoList} {a : Nat} {np : Option Nat}
    (hs : StrongInv l) {ait : TodoItem} (ha : alookup a l.items = some ait) :
    StrongInv (moveApply l a np) := by
  obtain ⟨hw, hmem⟩ := hs
  have hitems' : (moveApply l a np).items =
      aupsert a (ait.set_parent_id np) l.items := by
    unfold moveApply
    rw [ha]
  have hhier' : (moveApply l a np).hierarchy =
      hInsert np a (hErase ait.parent_id a l.hierarchy) := by
    unfold moveApply
    rw [ha]
    rfl
  have g1 : ∀ k, (alookup k (hErase ait.parent_id a l.hierarchy)).getD [] =
      if k = ait.parent_id then (bucketAt l k).erase a else bucketAt l k := by
    intro k
    by_cases hk : k = ait.parent_id
    · rw [if_pos hk, hk, getD_hErase_self]
      rfl
    · rw [if_neg hk, getD_hErase_ne _ hk]
      rfl
  have hbk : ∀ k, bucketAt (moveApply l a np) k =
      if k = np then
        bucketInsert ((alookup k (hErase ait.parent_id a l.hierarchy)).getD []) a
      else (alookup k (hErase ait.parent_id a l.hierarchy)).getD [] := by
    intro k
    unfold bucketAt
    rw [hhier']
    by_cases hk : k = np
    · rw [if_pos hk, hk, getD_hInsert_self]
    · rw [if_neg hk, alookup_hInsert_ne _ hk]
  have hlook : ∀ y, y ≠ a →
      alookup y (moveApply l a np).items = alookup y l.items := by
    intro y hy
    rw [hitems']
    exact alookup_aupsert_ne _ hy _
  have hlookself : alookup a (moveApply l a np).items =
      some (ait.set_parent_id np) := by
    rw [hitems']
    exact alookup_aupsert_self _ _ _
  have hamem : ∀ k, a ∈ bucketAt (moveApply l a np) k → k = np := by
    intro k hk
    rw [hbk] at hk
    by_cases h : k = np
    · exact h
    · exfalso
      rw [if_neg h, g1] at hk
      by_cases h2 : k = ait.parent_id
      · rw [if_pos h2] at hk
        exact ((List.Nodup.mem_erase_iff (bucketAt_nodup hw k)).1 hk).1 rfl
      · rw [if_neg h2] at hk
        have := winv_parent_of_mem hw hk
        rw [ha] at this
        simp only [Option.map_some'] at this
        exact h2 (Option.some.inj this).symm
  have hyMem : ∀ y k, y ≠ a →
      (y ∈ bucketAt (moveApply l a np) k ↔ y ∈ bucketAt l k) := by
    intro y k hy
    rw [hbk]
    by_cases h : k = np
    · rw [if_pos h, mem_bucketInsert, g1]
      by_cases h2 : k = ait.parent_id
      · rw [if_pos h2]
        rw [List.mem_erase_of_ne hy]
        exact ⟨fun hh => hh.resolve_left hy, Or.inr⟩
      · rw [if_neg h2]
        exact ⟨fun hh => hh.resolve_left hy, Or.inr⟩
    · rw [if_neg h, g1]
      by_cases h2 : k = ait.parent_id
      · rw [if_pos h2]
        exact List.mem_erase_of_ne hy
      · rw [if_neg h2]
  have hw' : WInv (moveApply l a np) := by
    apply winv_of_parts
    · rw [hitems']
      exact nodup_keys_aupsert _ _ hw.1
    · rw [hhier']
      apply nodup_keys_hInsert
      rw [hErase, map_fst_hModify]
      exact hw.2.1
    · intro k
      rw [hbk]
      have hne : ((alookup k (hErase ait.parent_id a l.hierarchy)).getD []).Nodup := by
        rw [g1]
        by_cases h2 : k = ait.parent_id
        · rw [if_pos h2]
          exact List.Nodup.erase _ (bucketAt_nodup hw k)
        · rw [if_neg h2]
          exact bucketAt_nodup hw k
      by_cases h : k = np
      · rw [if_pos h]
        exact nodup_bucketInsert hne _
      · rw [if_neg h]
        exact hne
    · intro k y hy
      by_cases hya : y = a
      · subst hya
        have hk := hamem k hy
        subst hk
        rw [hlookself]
        rfl
      · rw [hlook y hya]
        have := (hyMem y k hya).1 hy
        exact winv_parent_of_mem hw this
  apply strongInv_of_lookup hw'
  intro yid yit hy
  by_cases hya : yid = a
  · subst hya
    rw [hlookself] at hy
    cases hy
    have hpd : (ait.set_parent_id np).parent_id = np := rfl
    rw [hpd, hbk, if_pos rfl]
    exact self_mem_bucketInsert _ _
  · rw [hlook yid hya] at hy
    exact (hyMem yid yit.parent_id hya).2 (strongInv_mem_bucket ⟨hw, hmem⟩ hy)

theorem move_preserves_strong {l : TodoList} (a : Nat) (np : Option Nat)
    (hs : StrongInv l) : StrongInv (move_item l a np).2 := by
  by_cases h1 : alookup a l.items = none
  · simpa [move_item, h1] using hs
  · obtain ⟨ait, ha⟩ : ∃ ait, alookup a l.items = some ait := by
      cases hl : alookup a l.items with
      | none => exact absurd hl h1
      | some x => exact ⟨x, rfl⟩
    cases np with
    | none =>
        simpa [move_item, h1] using moveApply_preserves_strong ⟨hs.1, hs.2⟩ ha
    | some pid =>
        by_cases h2 : alookup pid l.items = none
        · simpa [move_item, h1, h2] using hs
        · by_cases h3 : pid = a ∨ is_ancestor l a pid = true
          · simpa [move_item, h1, h2, h3] using hs
          · simpa [move_item, h1, h2, h3] using
              moveApply_preserves_strong ⟨hs.1, hs.2⟩ ha

/-! ### The recursive deletion: helper lemmas -/

theorem alookup_none_of_sublist {α β : Type} [DecidableEq α] {k : α}
    {xs' xs : List (α × β)} (hsub : xs'.Sublist xs)
    (hnd : (xs.map Prod.fst).Nodup) :
    alookup k xs = none → alookup k xs' = none := by
  intro hk
  cases hx : alookup k xs' with
  | none => rfl
  | some v =>
      have := alookup_sublist hsub hnd hx
      rw [hk] at this
      cases this

theorem remStep_refl (l : TodoList) : RemStep l l where
  items_sub := List.Sublist.refl _
  lookup_pres := fun _ _ h => h
  keys_mono := fun _ h => h
  bucket_mono := fun _ _ h => h
  hlen := le_refl _
  lost_mem := fun _ _ h1 h2 => absurd h1 h2
  key_gone := fun _ h1 h2 => absurd h2 h1

theorem remStep_none_pres {l1 l2 : TodoList} (st : RemStep l1 l2) {x : Nat} :
    alookup x l1.items = none → alookup x l2.items = none := by
  intro h
  cases h2 : alookup x l2.items with
  | none => rfl
  | some it =>
      have := st.lookup_pres x it h2
      rw [h] at this
      cases this

theorem remStep_trans {l1 l2 l3 : TodoList}
    (a : RemStep l1 l2) (b : RemStep l2 l3) : RemStep l1 l3 where
  items_sub := b.items_sub.trans a.items_sub
  lookup_pres := fun x it h => a.lookup_pres x it (b.lookup_pres x it h)
  keys_mono := fun k h => b.keys_mono k (a.keys_mono k h)
  bucket_mono := fun k x h => a.bucket_mono k x (b.bucket_mono k x h)
  hlen := le_trans b.hlen a.hlen
  lost_mem := by
    intro k x h1 h2
    by_cases hmid : x ∈ bucketAt l2 k
    · exact b.lost_mem k x hmid h2
    · exact remStep_none_pres b (a.lost_mem k x h1 hmid)
  key_gone := by
    intro x h1 h2
    by_cases hmid : alookup x l2.items = none
    · exact b.keys_mono (some x) (a.key_gone x h1 hmid)
    · exact b.key_gone x hmid h2

theorem reachB_mono {l l' : TodoList}
    (hmono : ∀ k x, x ∈ bucketAt l' k → x ∈ bucketAt l k) {r x : Nat} :
    ReachB l' r x → ReachB l r x := by
  intro h
  induction h with
  | base hx => exact ReachB.base (hmono _ _ hx)
  | step _ hx ih => exact ReachB.step ih (hmono _ _ hx)

theorem reachB_compose {l : TodoList} {r c x : Nat}
    (hc : c ∈ bucketAt l (some r)) : ReachB l c x → ReachB l r x := by
  intro h
  induction h with
  | base hx => exact ReachB.step (ReachB.base hc) hx
  | step _ hx ih => exact ReachB.step ih hx

theorem length_hModify (k : Option Nat) (f : List Nat → List Nat)
    (h : List (Option Nat × List Nat)) :
    (hModify k f h).length = h.length := by
  have := congrArg List.length (map_fst_hModify k f h)
  simpa using this

theorem removeTail_spec {l2 : TodoList} (id : Nat) (k0 : Option Nat)
    (hw2 : WInv l2) (hk0 : ∀ k, id ∈ bucketAt l2 k → k = k0) :
    WInv (TodoList.mk l2.name (aremove id l2.items) (hErase k0 id l2.hierarchy)) ∧
    (aremove id l2.items).Sublist l2.items ∧
    (∀ k, alookup k l2.hierarchy = none →
      alookup k (hErase k0 id l2.hierarchy) = none) ∧
    (∀ k x, x ∈ bucketAt (TodoList.mk l2.name (aremove id l2.items)
      (hErase k0 id l2.hierarchy)) k → x ∈ bucketAt l2 k) ∧
    (hErase k0 id l2.hierarchy).length = l2.hierarchy.length ∧
    alookup id (aremove id l2.items) = none ∧
    (∀ k x, x ∈ bucketAt l2 k →
      x ∉ bucketAt (TodoList.mk l2.name (aremove id l2.items)
        (hErase k0 id l2.hierarchy)) k →
      alookup x (aremove id l2.items) = none) ∧
    (∀ x, x ≠ id → alookup x (aremove id l2.items) = alookup x l2.items) := by
  have hbk : ∀ k, bucketAt (TodoList.mk l2.name (aremove id l2.items)
      (hErase k0 id l2.hierarchy)) k =
      if k = k0 then (bucketAt l2 k).erase id else bucketAt l2 k := by
    intro k
    by_cases hk : k = k0
    · show (alookup k (hErase k0 id l2.hierarchy)).getD [] = _
      rw [if_pos hk, hk, getD_hErase_self]
      rfl
    · show (alookup k (hErase k0 id l2.hierarchy)).getD [] = _
      rw [if_neg hk, getD_hErase_ne _ hk]
      rfl
  have hidnone : alookup id (aremove id l2.items) = none :=
    alookup_aremove_self id hw2.1
  have hlookne : ∀ x, x ≠ id → alookup x (aremove id l2.items) = alookup x l2.items :=
    fun x hx => alookup_aremove_ne hx l2.items
  have hidbucket : ∀ k, id ∉ bucketAt (TodoList.mk l2.name (aremove id l2.items)
      (hErase k0 id l2.hierarchy)) k := by
    intro k hk
    rw [hbk] at hk
    by_cases h : k = k0
    · rw [if_pos h] at hk
      exact ((List.Nodup.mem_erase_iff (bucketAt_nodup hw2 k)).1 hk).1 rfl
    · rw [if_neg h] at hk
      exact h (hk0 k hk)
  refine ⟨?_, aremove_sublist id l2.items, ?_, ?_, ?_, hidnone, ?_, hlookne⟩
  · apply winv_of_parts
    · show ((aremove id l2.items).map Prod.fst).Nodup
      exact hw2.1.sublist (List.Sublist.map Prod.fst (aremove_sublist id l2.items))
    · show ((hErase k0 id l2.hierarchy).map Prod.fst).Nodup
      rw [hErase, map_fst_hModify]
      exact hw2.2.1
    · intro k
      rw [hbk]
      by_cases h : k = k0
      · rw [if_pos h]
        exact List.Nodup.erase _ (bucketAt_nodup hw2 k)
      · rw [if_neg h]
        exact bucketAt_nodup hw2 k
    · intro k y hy
      have hyne : y ≠ id := by
        intro hc
        subst hc
        exact hidbucket k hy
      have hy2 : y ∈ bucketAt l2 k := by
        rw [hbk] at hy
        by_cases h : k = k0
        · rw [if_pos h] at hy
          exact List.erase_subset _ _ hy
        · rwa [if_neg h] at hy
      show (alookup y (aremove id l2.items)).map TodoItem.parent_id = some k
      rw [hlookne y hyne]
      exact winv_parent_of_mem hw2 hy2
  · intro k hnone
    by_cases hk : k = k0
    · rw [hk] at hnone
      rw [hk, hErase, alookup_hModify_self, hnone]
      rfl
    · rw [hErase, alookup_hModify_ne _ hk]
      exact hnone
  · intro k x hx
    rw [hbk] at hx
    by_cases h : k = k0
    · rw [if_pos h] at hx
      exact List.erase_subset _ _ hx
    · rwa [if_neg h] at hx
  · exact length_hModify k0 _ l2.hierarchy
  · intro k x hx hnx
    by_cases hxid : x = id
    · rw [hxid]
      exact hidnone
    · exfalso
      apply hnx
      rw [hbk]
      by_cases h : k = k0
      · rw [if_pos h]
        exact (List.mem_erase_of_ne hxid).2 hx
      · rwa [if_neg h]

theorem removeList_spec (n : Nat)
    (ih : ∀ l id, WInv l → l.hierarchy.length < n →
      RemSpec l id (removeItemGo n l id).2) :
    ∀ (cs : List Nat) (acc : TodoList), WInv acc → acc.hierarchy.length < n →
      RemStep acc (removeListGo n cs acc) ∧
      WInv (removeListGo n cs acc) ∧
      (removeListGo n cs acc).hierarchy.length < n ∧
      (∀ c ∈ cs, alookup c (removeListGo n cs acc).items = none) ∧
      (∀ x, alookup x acc.items ≠ none →
        alookup x (removeListGo n cs acc).items = none →
        ∃ c ∈ cs, x = c ∨ ReachB acc c x) ∧
      (∀ x, alookup x acc.items ≠ none →
        alookup x (removeListGo n cs acc).items = none →
        alookup (some x) (removeListGo n cs acc).hierarchy = none) := by
  intro cs
  induction cs with
  | nil =>
      intro acc hw hlt
      rw [removeListGo]
      exact ⟨remStep_refl acc, hw, hlt, by simp,
        fun x h1 h2 => absurd h2 h1, fun x h1 h2 => absurd h2 h1⟩
  | cons c cs ihcs =>
      intro acc hw hlt
      rw [removeListGo]
      have hstep := ih acc c hw hlt
      have hw1 : WInv (removeItemGo n acc c).2 := hstep.winv
      have hlt1 : (removeItemGo n acc c).2.hierarchy.length < n :=
        lt_of_le_of_lt hstep.hlen hlt
      obtain ⟨hstep2, hw2, hlt2, hall2, hrem2, hkg2⟩ :=
        ihcs (removeItemGo n acc c).2 hw1 hlt1
      refine ⟨remStep_trans hstep.toRemStep hstep2, hw2, hlt2, ?_, ?_, ?_⟩
      · intro c' hc'
        rcases List.mem_cons.1 hc' with rfl | hc'
        · by_cases hc : alookup c' acc.items = none
          · exact remStep_none_pres hstep2 (remStep_none_pres hstep.toRemStep hc)
          · exact remStep_none_pres hstep2 (hstep.removed_self hc)
        · exact hall2 c' hc'
      · intro x h1 h2
        by_cases hx1 : alookup x (removeItemGo n acc c).2.items = none
        · rcases hstep.removed_sub x h1 hx1 with rfl | hr
          · exact ⟨x, List.mem_cons_self _ _, Or.inl rfl⟩
          · exact ⟨c, List.mem_cons_self _ _, Or.inr hr⟩
        · obtain ⟨c', hc', hcase⟩ := hrem2 x hx1 h2
          refine ⟨c', List.mem_cons_of_mem _ hc', ?_⟩
          rcases hcase with rfl | hr
          · exact Or.inl rfl
          · exact Or.inr (reachB_mono hstep.toRemStep.bucket_mono hr)
      · intro x h1 h2
        by_cases hx1 : alookup x (removeItemGo n acc c).2.items = none
        · exact hstep2.keys_mono (some x) (hstep.key_gone x h1 hx1)
        · exact hkg2 x hx1 h2

theorem removeAssemble {l l1 l2 : TodoList} {id : Nat} {k0 : Option Nat}
    (hw : WInv l) (hl1i : l1.items = l.items)
    (hl1h : l1.hierarchy = aremove (some id) l.hierarchy)
    (hstep : RemStep l1 l2) (hw2 : WInv l2)
    (hall : ∀ c ∈ bucketAt l (some id), alookup c l2.items = none)
    (hrem : ∀ x, alookup x l1.items ≠ none → alookup x l2.items = none →
      ∃ c ∈ bucketAt l (some id), x = c ∨ ReachB l1 c x)
    (hkg : ∀ x, alookup x l1.items ≠ none → alookup x l2.items = none →
      alookup (some x) l2.hierarchy = none)
    (hk0 : ∀ k, id ∈ bucketAt l2 k → k = k0) :
    RemSpec l id
      (TodoList.mk l2.name (aremove id l2.items) (hErase k0 id l2.hierarchy)) := by
  obtain ⟨tw, tsub, tkeys, tmono, tlen, tidnone, tlost, tne⟩ :=
    removeTail_spec id k0 hw2 hk0
  have hbl1_ne : ∀ k, k ≠ some id → bucketAt l1 k = bucketAt l k := by
    intro k hk
    show (alookup k l1.hierarchy).getD [] = (alookup k l.hierarchy).getD []
    rw [hl1h, alookup_aremove_ne hk]
  have hbl1_id : bucketAt l1 (some id) = [] := by
    show (alookup (some id) l1.hierarchy).getD [] = []
    rw [hl1h, alookup_aremove_self _ hw.2.1]
    rfl
  have hl1_mono : ∀ k x, x ∈ bucketAt l1 k → x ∈ bucketAt l k := by
    intro k x hx
    by_cases hk : k = some id
    · subst hk
      rw [hbl1_id] at hx
      cases hx
    · rw [← hbl1_ne k hk]
      exact hx
  have hkeys_l1 : ∀ k, alookup k l.hierarchy = none →
      alookup k l1.hierarchy = none := by
    intro k hn
    rw [hl1h]
    exact alookup_none_of_sublist (aremove_sublist _ _) hw.2.1 hn
  have hl1_lookup_eq : ∀ x : Nat, alookup x l1.items = alookup x l.items := by
    intro x
    rw [hl1i]
  have hlen1 : l1.hierarchy.length ≤ l.hierarchy.length := by
    rw [hl1h]
    exact (aremove_sublist _ _).length_le
  have hkeyid_l1 : alookup (some id) l1.hierarchy = none := by
    rw [hl1h]
    exact alookup_aremove_self _ hw.2.1
  have h4_none_of_2 : ∀ x, alookup x l2.items = none →
      alookup x (aremove id l2.items) = none :=
    fun x => alookup_none_of_sublist tsub hw2.1
  refine ⟨⟨?_, ?_, ?_, ?_, ?_, ?_, ?_⟩, tw, fun _ => tidnone, ?_⟩
  · exact tsub.trans (hl1i ▸ hstep.items_sub)
  · intro x it h4
    by_cases hx : x = id
    · subst hx
      rw [tidnone] at h4
      cases h4
    · rw [tne x hx] at h4
      have := hstep.lookup_pres x it h4
      rw [hl1i] at this
      exact this
  · exact fun k hn => tkeys k (hstep.keys_mono k (hkeys_l1 k hn))
  · exact fun k x hx => hl1_mono k x (hstep.bucket_mono k x (tmono k x hx))
  · show (hErase k0 id l2.hierarchy).length ≤ l.hierarchy.length
    rw [tlen]
    exact le_trans hstep.hlen hlen1
  · intro k x hx hnx4
    by_cases hk : k = some id
    · subst hk
      exact h4_none_of_2 x (hall x hx)
    · have hx1 : x ∈ bucketAt l1 k := by
        rw [hbl1_ne k hk]
        exact hx
      by_cases hx2 : x ∈ bucketAt l2 k
      · exact tlost k x hx2 hnx4
      · exact h4_none_of_2 x (hstep.lost_mem k x hx1 hx2)
  · intro x h1 h2
    by_cases hxid : x = id
    · subst hxid
      exact tkeys (some x) (hstep.keys_mono (some x) hkeyid_l1)
    · by_cases hx2 : alookup x l2.items = none
      · have h1ne : alookup x l1.items ≠ none := by
          rw [hl1_lookup_eq]
          exact h1
        exact tkeys (some x) (hkg x h1ne hx2)
      · exfalso
        rw [tne x hxid] at h2
        exact hx2 h2
  · intro x h1 h2
    by_cases hxid : x = id
    · exact Or.inl hxid
    · have hx2 : alookup x l2.items = none := by
        rw [← tne x hxid]
        exact h2
      have h1ne : alookup x l1.items ≠ none := by
        rw [hl1_lookup_eq]
        exact h1
      obtain ⟨c, hc, hcase⟩ := hrem x h1ne hx2
      rcases hcase with rfl | hr
      · exact Or.inr (ReachB.base hc)
      · exact Or.inr (reachB_compose hc (reachB_mono hl1_mono hr))

theorem removeGo_spec : ∀ (fuel : Nat) (l : TodoList) (id : Nat), WInv l →
    l.hierarchy.length < fuel → RemSpec l id (removeItemGo fuel l id).2 := by
  intro fuel
  induction fuel with
  | zero =>
      intro l id hw hlt
      exact absurd hlt (by omega)
  | succ n ih =>
      intro l id hw hlt
      by_cases hid : alookup id l.items = none
      · have heq : removeItemGo (n + 1) l id = (none, l) := by
          rw [removeItemGo, if_pos hid]
        rw [heq]
        exact ⟨remStep_refl l, hw, fun h => absurd hid h,
          fun x h1 h2 => absurd h2 h1⟩
      · have hw1 : WInv (TodoList.mk l.name l.items
            (aremove (some id) l.hierarchy)) := by
          refine ⟨hw.1, ?_, ?_, ?_⟩
          · exact hw.2.1.sublist (List.Sublist.map Prod.fst (aremove_sublist _ _))
          · intro e he
            exact hw.2.2.1 e ((aremove_sublist _ _).subset he)
          · intro e he x hx
            exact hw.2.2.2 e ((aremove_sublist _ _).subset he) x hx
        have hfold : RemStep (TodoList.mk l.name l.items (aremove (some id) l.hierarchy))
              (removeListGo n ((alookup (some id) l.hierarchy).getD [])
                (TodoList.mk l.name l.items (aremove (some id) l.hierarchy))) ∧
            WInv (removeListGo n ((alookup (some id) l.hierarchy).getD [])
                (TodoList.mk l.name l.items (aremove (some id) l.hierarchy))) ∧
            (∀ c ∈ bucketAt l (some id),
              alookup c (removeListGo n ((alookup (some id) l.hierarchy).getD [])
                (TodoList.mk l.name l.items (aremove (some id) l.hierarchy))).items = none) ∧
            (∀ x, alookup x (TodoList.mk l.name l.items
                (aremove (some id) l.hierarchy)).items ≠ none →
              alookup x (removeListGo n ((alookup (some id) l.hierarchy).getD [])
                (TodoList.mk l.name l.items (aremove (some id) l.hierarchy))).items = none →
              ∃ c ∈ bucketAt l (some id), x = c ∨
                ReachB (TodoList.mk l.name l.items (aremove (some id) l.hierarchy)) c x) ∧
            (∀ x, alookup x (TodoList.mk l.name l.items
                (aremove (some id) l.hierarchy)).items ≠ none →
              alookup x (removeListGo n ((alookup (some id) l.hierarchy).getD [])
                (TodoList.mk l.name l.items (aremove (some id) l.hierarchy))).items = none →
              alookup (some x) (removeListGo n ((alookup (some id) l.hierarchy).getD [])
                (TodoList.mk l.name l.items (aremove (some id) l.hierarchy))).hierarchy = none) := by
          by_cases hbkt : alookup (some id) l.hierarchy = none
          · have hnil : (alookup (some id) l.hierarchy).getD [] = ([] : List Nat) := by
              rw [hbkt]
              rfl
            rw [hnil, removeListGo]
            have hempty : bucketAt l (some id) = [] := by
              unfold bucketAt
              rw [hbkt]
              rfl
            refine ⟨remStep_refl _, hw1, ?_, ?_, ?_⟩
            · intro c hc
              rw [hempty] at hc
              cases hc
            · intro x h1 h2
              exact absurd h2 h1
            · intro x h1 h2
              exact absurd h2 h1
          · obtain ⟨B, hB⟩ : ∃ B, alookup (some id) l.hierarchy = some B := by
              cases h : alookup (some id) l.hierarchy with
              | none => exact absurd h hbkt
              | some B => exact ⟨B, rfl⟩
            have hlt1 : (TodoList.mk l.name l.items
                (aremove (some id) l.hierarchy)).hierarchy.length < n := by
              have := length_aremove_of_some hB
              show (aremove (some id) l.hierarchy).length < n
              omega
            obtain ⟨s1, s2, _, s4, s5, s6⟩ :=
              removeList_spec n ih ((alookup (some id) l.hierarchy).getD [])
                (TodoList.mk l.name l.items (aremove (some id) l.hierarchy)) hw1 hlt1
            exact ⟨s1, s2, s4, s5, s6⟩
        obtain ⟨hstep, hw2, hall, hrem, hkg⟩ := hfold
        cases hpar : (alookup id (removeListGo n ((alookup (some id) l.hierarchy).getD [])
            (TodoList.mk l.name l.items (aremove (some id) l.hierarchy))).items).bind
              TodoItem.parent_id with
        | some p =>
            have hk0 : ∀ k, id ∈ bucketAt (removeListGo n
                ((alookup (some id) l.hierarchy).getD [])
                (TodoList.mk l.name l.items (aremove (some id) l.hierarchy))) k →
                k = some p := by
              intro k hk
              have hpm := winv_parent_of_mem hw2 hk
              cases hlook2 : alookup id (removeListGo n
                  ((alookup (some id) l.hierarchy).getD [])
                  (TodoList.mk l.name l.items (aremove (some id) l.hierarchy))).items with
              | none =>
                  rw [hlook2] at hpm
                  cases hpm
              | some it2 =>
                  rw [hlook2] at hpm hpar
                  simp only [Option.map_some'] at hpm
                  simp only [Option.some_bind] at hpar
                  rw [← Option.some.inj hpm, hpar]
            have heq : (removeItemGo (n + 1) l id).2 = TodoList.mk
                (removeListGo n ((alookup (some id) l.hierarchy).getD [])
                  (TodoList.mk l.name l.items (aremove (some id) l.hierarchy))).name
                (aremove id (removeListGo n ((alookup (some id) l.hierarchy).getD [])
                  (TodoList.mk l.name l.items (aremove (some id) l.hierarchy))).items)
                (hErase (some p) id (removeListGo n
                  ((alookup (some id) l.hierarchy).getD [])
                  (TodoList.mk l.name l.items (aremove (some id) l.hierarchy))).hierarchy) := by
              rw [removeItemGo, if_neg hid]
              simp only [hpar]
            rw [heq]
            exact removeAssemble hw
              (rfl : (TodoList.mk l.name l.items
                (aremove (some id) l.hierarchy)).items = l.items)
              rfl hstep hw2 hall hrem hkg hk0
        | none =>
            have hk0 : ∀ k, id ∈ bucketAt (removeListGo n
                ((alookup (some id) l.hierarchy).getD [])
                (TodoList.mk l.name l.items (aremove (some id) l.hierarchy))) k →
                k = none := by
              intro k hk
              have hpm := winv_parent_of_mem hw2 hk
              cases hlook2 : alookup id (removeListGo n
                  ((alookup (some id) l.hierarchy).getD [])
                  (TodoList.mk l.name l.items (aremove (some id) l.hierarchy))).items with
              | none =>
                  rw [hlook2] at hpm
                  cases hpm
              | some it2 =>
                  rw [hlook2] at hpm hpar
                  simp only [Option.map_some'] at hpm
                  simp only [Option.some_bind] at hpar
                  rw [← Option.some.inj hpm, hpar]
            have heq : (removeItemGo (n + 1) l id).2 = TodoList.mk
                (removeListGo n ((alookup (some id) l.hierarchy).getD [])
                  (TodoList.mk l.name l.items (aremove (some id) l.hierarchy))).name
                (aremove id (removeListGo n ((alookup (some id) l.hierarchy).getD [])
                  (TodoList.mk l.name l.items (aremove (some id) l.hierarchy))).items)
                (hErase none id (removeListGo n
                  ((alookup (some id) l.hierarchy).getD [])
                  (TodoList.mk l.name l.items (aremove (some id) l.hierarchy))).hierarchy) := by
              rw [removeItemGo, if_neg hid]
              simp only [hpar]
            rw [heq]
            exact removeAssemble hw
              (rfl : (TodoList.mk l.name l.items
                (aremove (some id) l.hierarchy)).items = l.items)
              rfl hstep hw2 hall hrem hkg hk0

theorem remove_spec (l : TodoList) (id : Nat) (hw : WInv l) :
    RemSpec l id (remove_item l id).2 :=
  removeGo_spec (l.hierarchy.length + 1) l id hw (Nat.lt_succ_self _)

theorem remove_preserves_strong (id : Nat) {l : TodoList} (hs : StrongInv l) :
    StrongInv (remove_item l id).2 := by
  obtain ⟨hw, hmem⟩ := hs
  have sp := remove_spec l id hw
  apply strongInv_of_lookup sp.winv
  intro yid yit hy
  have hyl : alookup yid l.items = some yit := sp.lookup_pres yid yit hy
  have hmem0 : yid ∈ bucketAt l yit.parent_id :=
    strongInv_mem_bucket ⟨hw, hmem⟩ hyl
  by_contra hnot
  have := sp.lost_mem yit.parent_id yid hmem0 hnot
  rw [hy] at this
  cases this

/-! ### Claim C1: the hierarchy invariant under fresh-id sequences -/

theorem strongInv_empty (name : String) : StrongInv (TodoList.new name) := by
  refine ⟨⟨List.nodup_nil, List.nodup_nil, ?_, ?_⟩, ?_⟩
  · intro e he
    cases he
  · intro e he
    cases he
  · intro pr hpr
    cases hpr

theorem strongInv_claimInv {l : TodoList} (hs : StrongInv l) : ClaimInv l := by
  intro k it hk
  have hb := strongInv_mem_bucket hs hk
  obtain ⟨b, hbl, hkb⟩ := mem_bucketAt_iff.1 hb
  constructor
  · refine ⟨(it.parent_id, b), ⟨alookup_mem hbl, hkb⟩, ?_⟩
    rintro ⟨k', b'⟩ ⟨hmem', hkb'⟩
    have hk' : (alookup k l.items).map TodoItem.parent_id = some k' :=
      hs.1.2.2.2 (k', b') hmem' k hkb'
    rw [hk] at hk'
    simp only [Option.map_some'] at hk'
    have hkeq : k' = it.parent_id := (Option.some.inj hk').symm
    subst hkeq
    have hbb := nodup_keys_entry_eq hs.1.2.1 hmem' (alookup_mem hbl)
    rw [hbb]
  · intro e he hke
    have hk' := hs.1.2.2.2 e he k hke
    rw [hk] at hk'
    simp only [Option.map_some'] at hk'
    exact (Option.some.inj hk').symm

theorem strongInv_run {l : TodoList} (hs : StrongInv l) :
    ∀ ops, freshRun l ops = true → StrongInv (runOps l ops) := by
  intro ops
  induction ops generalizing l with
  | nil => intro _; exact hs
  | cons op ops ih =>
      intro hfr
      rw [freshRun, Bool.and_eq_true] at hfr
      have hnext : StrongInv (applyOp l op) := by
        cases op with
        | create id now title =>
            apply add_preserves_strong hs
            have := hfr.1
            rw [freshOk, Option.isNone_iff_eq_none] at this
            exact this
        | add item =>
            apply add_preserves_strong hs
            have := hfr.1
            rw [freshOk, Option.isNone_iff_eq_none] at this
            exact this
        | remove id => exact remove_preserves_strong id hs
        | move id parent => exact move_preserves_strong id parent hs
      have hrun : runOps l (op :: ops) = runOps (applyOp l op) ops := rfl
      rw [hrun]
      exact ih hnext hfr.2

/-- C1 (amended): for every sequence of create_item, add_item, remove_item
and move_item calls starting from an empty TodoList, in which every
created or added item's id is not already a key of items at the time of
the call, every id present in items appears in exactly one hierarchy
bucket and that bucket's key equals the item's current parent_id. -/
theorem C1_fresh_sequences_invariant (name : String) (ops : List Op)
    (hfr : freshRun (TodoList.new name) ops = true) :
    ClaimInv (runOps (TodoList.new name) ops) :=
  strongInv_claimInv (strongInv_run (strongInv_empty name) ops hfr)

/-- Witness for C1 on a concrete fresh-id sequence. -/
theorem C1_witness :
    freshRun (TodoList.new "w")
      [Op.create 1 0 "a", Op.create 2 0 "b", Op.move 2 (some 1)] = true ∧
    ClaimInv (runOps (TodoList.new "w")
      [Op.create 1 0 "a", Op.create 2 0 "b", Op.move 2 (some 1)]) :=
  ⟨by decide,
   C1_fresh_sequences_invariant "w"
     [Op.create 1 0 "a", Op.create 2 0 "b", Op.move 2 (some 1)] (by decide)⟩

/-! ### Claim C5: cascading removal of a subtree -/

theorem parentOf_mem_bucket {l : TodoList} (hs : StrongInv l) {x y : Nat}
    (h : parentOf l x = some y) : x ∈ bucketAt l (some y) := by
  cases hlook : alookup x l.items with
  | none =>
      rw [parentOf, hlook] at h
      cases h
  | some it =>
      rw [parentOf, hlook, Option.some_bind] at h
      have hb := strongInv_mem_bucket hs hlook
      rw [h] at hb
      exact hb

theorem isDesc_iff_reachB {l : TodoList} (hs : StrongInv l) {p x : Nat} :
    IsDesc l p x ↔ ReachB l p x := by
  constructor
  · intro h
    induction h with
    | base hpar => exact ReachB.base (parentOf_mem_bucket hs hpar)
    | step hpar _ ih => exact ReachB.step ih (parentOf_mem_bucket hs hpar)
  · intro h
    induction h with
    | base hxb =>
        obtain ⟨it, hit, hp⟩ := winv_mem_items hs.1 hxb
        exact IsDesc.base (by rw [parentOf, hit, Option.some_bind, hp])
    | step _ hxb ih =>
        obtain ⟨it, hit, hp⟩ := winv_mem_items hs.1 hxb
        exact IsDesc.step (by rw [parentOf, hit, Option.some_bind, hp]) ih

theorem reachB_mem_items {l : TodoList} (hw : WInv l) {r y : Nat} :
    ReachB l r y → alookup y l.items ≠ none := by
  intro h
  cases h with
  | base hb =>
      obtain ⟨it, hit, -⟩ := winv_mem_items hw hb
      rw [hit]
      intro hc
      cases hc
  | step _ hb =>
      obtain ⟨it, hit, -⟩ := winv_mem_items hw hb
      rw [hit]
      intro hc
      cases hc

theorem remove_removes_reach {l : TodoList} (hs : StrongInv l) (p : Nat)
    (hp : alookup p l.items ≠ none) :
    ∀ x, ReachB l p x → alookup x (remove_item l p).2.items = none := by
  have sp := remove_spec l p hs.1
  intro x hx
  induction hx with
  | base hxb =>
      rename_i w
      have hpgone := sp.removed_self hp
      have hkey := sp.key_gone p hp hpgone
      have hnot : w ∉ bucketAt (remove_item l p).2 (some p) := by
        unfold bucketAt
        rw [hkey]
        simp
      exact sp.lost_mem (some p) w hxb hnot
  | step hy hxb ihy =>
      rename_i y z
      have hyitems : alookup y l.items ≠ none := reachB_mem_items hs.1 hy
      have hkey := sp.key_gone y hyitems ihy
      have hnot : z ∉ bucketAt (remove_item l p).2 (some y) := by
        unfold bucketAt
        rw [hkey]
        simp
      exact sp.lost_mem (some y) z hxb hnot

theorem length_filter_partition {α : Type} (P : α → Bool) :
    ∀ (xs : List α),
      (xs.filter P).length + (xs.filter (fun a => !P a)).length = xs.length := by
  intro xs
  induction xs with
  | nil => rfl
  | cons a rest ih =>
      cases h : P a
      all_goals simp [List.filter_cons, h]
      all_goals omega

theorem filter_mem_of_sublist {l2 l1 : List Nat} (hsub : l2.Sublist l1) :
    l1.Nodup → l1.filter (fun a => decide (a ∈ l2)) = l2 := by
  induction hsub with
  | slnil => intro _; rfl
  | cons a h ih =>
      rename_i s t
      intro hnd
      simp only [List.nodup_cons] at hnd
      have hna : a ∉ s := fun hmem => hnd.1 (h.subset hmem)
      rw [List.filter_cons, if_neg (by simpa using hna)]
      exact ih hnd.2
  | cons₂ a h ih =>
      rename_i s t
      intro hnd
      simp only [List.nodup_cons] at hnd
      rw [List.filter_cons, if_pos (by simp)]
      congr 1
      have hcong : ∀ x ∈ t, (decide (x ∈ a :: s) : Bool) = decide (x ∈ s) := by
        intro x hx
        have hxa : x ≠ a := fun hh => hnd.1 (hh ▸ hx)
        simp [List.mem_cons, hxa]
      rw [List.filter_congr hcong]
      exact ih hnd.2

/-- C5: for every consistent store and id p present in items with at least
one descendant, after remove_item(p) the items map contains neither p nor
any transitive descendant of p, every other entry is untouched, and len()
drops by exactly the size of the removed subtree (p plus all transitive
descendants). -/
theorem C5_remove_subtree (l : TodoList) (p : Nat) (hs : StrongInv l)
    (hp : alookup p l.items ≠ none) (hdesc : ∃ c, IsDesc l p c) :
    ∃ S : List Nat, S.Nodup ∧
      (∀ q, q ∈ S ↔ q = p ∨ IsDesc l p q) ∧
      (∀ q ∈ S, alookup q (remove_item l p).2.items = none) ∧
      (∀ q, q ∉ S →
        alookup q (remove_item l p).2.items = alookup q l.items) ∧
      (remove_item l p).2.len + S.length = l.len := by
  have sp := remove_spec l p hs.1
  have hchar : ∀ q, q ∈ (l.items.map Prod.fst).filter
      (fun q => (alookup q (remove_item l p).2.items).isNone) ↔
      (alookup q l.items ≠ none ∧
        alookup q (remove_item l p).2.items = none) := by
    intro q
    rw [List.mem_filter]
    constructor
    · rintro ⟨hmem, hnone⟩
      refine ⟨?_, Option.isNone_iff_eq_none.1 hnone⟩
      intro hn
      exact (alookup_eq_none _ _).1 hn hmem
    · rintro ⟨hne, hnone⟩
      refine ⟨?_, Option.isNone_iff_eq_none.2 hnone⟩
      by_contra hmem
      exact hne ((alookup_eq_none _ _).2 hmem)
  refine ⟨(l.items.map Prod.fst).filter
      (fun q => (alookup q (remove_item l p).2.items).isNone),
    hs.1.1.filter _, ?_, ?_, ?_, ?_⟩
  · intro q
    rw [hchar q]
    constructor
    · rintro ⟨hne, hnone⟩
      rcases sp.removed_sub q hne hnone with rfl | hr
      · exact Or.inl rfl
      · exact Or.inr ((isDesc_iff_reachB hs).2 hr)
    · rintro (rfl | hd)
      · exact ⟨hp, sp.removed_self hp⟩
      · have hr := (isDesc_iff_reachB hs).1 hd
        exact ⟨reachB_mem_items hs.1 hr, remove_removes_reach hs p hp q hr⟩
  · intro q hq
    exact ((hchar q).1 hq).2
  · intro q hq
    by_cases hql : alookup q l.items = none
    · rw [hql]
      exact remStep_none_pres sp.toRemStep hql
    · cases h4 : alookup q (remove_item l p).2.items with
      | none => exact absurd ((hchar q).2 ⟨hql, h4⟩) hq
      | some it => exact (sp.lookup_pres q it h4).symm
  · show (remove_item l p).2.items.length +
        ((l.items.map Prod.fst).filter
          (fun q => (alookup q (remove_item l p).2.items).isNone)).length =
        l.items.length
    have hsubkeys : ((remove_item l p).2.items.map Prod.fst).Sublist
        (l.items.map Prod.fst) := List.Sublist.map Prod.fst sp.items_sub
    have hfe : (l.items.map Prod.fst).filter
        (fun q => decide (q ∈ (remove_item l p).2.items.map Prod.fst)) =
        (remove_item l p).2.items.map Prod.fst :=
      filter_mem_of_sublist hsubkeys hs.1.1
    have hcong : ∀ q ∈ l.items.map Prod.fst,
        ((alookup q (remove_item l p).2.items).isNone : Bool) =
        !(decide (q ∈ (remove_item l p).2.items.map Prod.fst)) := by
      intro q _
      cases h4 : alookup q (remove_item l p).2.items with
      | none =>
          have hnm : q ∉ (remove_item l p).2.items.map Prod.fst :=
            (alookup_eq_none _ _).1 h4
          simp [hnm]
      | some it =>
          have hm : q ∈ (remove_item l p).2.items.map Prod.fst :=
            List.mem_map.2 ⟨(q, it), alookup_mem h4, rfl⟩
          simp [hm]
    have hSrw : (l.items.map Prod.fst).filter
          (fun q => (alookup q (remove_item l p).2.items).isNone) =
        (l.items.map Prod.fst).filter
          (fun q => !(decide (q ∈ (remove_item l p).2.items.map Prod.fst))) :=
      List.filter_congr hcong
    have hpart := length_filter_partition
      (fun q => decide (q ∈ (remove_item l p).2.items.map Prod.fst))
      (l.items.map Prod.fst)
    rw [hSrw]
    rw [hfe] at hpart
    have hlen4 : ((remove_item l p).2.items.map Prod.fst).length =
        (remove_item l p).2.items.length := List.length_map _ _
    have hlenl : (l.items.map Prod.fst).length = l.items.length :=
      List.length_map _ _
    omega

/-- Witness for C5 on the concrete store with parent 1 and child 2. -/
theorem C5_witness :
    StrongInv parentChildStore ∧
    (∃ S : List Nat, S.Nodup ∧
      (∀ q, q ∈ S ↔ q = 1 ∨ IsDesc parentChildStore 1 q) ∧
      (∀ q ∈ S, alookup q (remove_item parentChildStore 1).2.items = none) ∧
      (∀ q, q ∉ S →
        alookup q (remove_item parentChildStore 1).2.items =
          alookup q parentChildStore.items) ∧
      (remove_item parentChildStore 1).2.len + S.length = parentChildStore.len) :=
  ⟨by decide,
   C5_remove_subtree parentChildStore 1 (by decide) (by decide)
     ⟨2, IsDesc.base (by decide)⟩⟩
